import Mathlib

/-!
Verification of the Sales–Returns Reconciliation & Period Aggregation Engine
of the sales-analysis toolkit.

The Python sources are embedded shallowly:

* pandas data frames become Lean lists of records (one structure per frame
  shape), carried in input order;
* pandas/NumPy floating-point numbers become rationals (`ℚ`): every arithmetic
  step the claims mention (safe division, rounding, sums, means, quantiles)
  is exact in `ℚ`, and "never NaN/Inf" facts are captured by totality of the
  embedded functions;
* Python strings become `List Char` (`PyStr`) together with embeddings of the
  string primitives the code uses (`str.strip`, `str.lower`, substring
  search, `str(int)` rendering, `f"{x:f}"` fixed-point rendering);
* missing cells (`NaN` in object columns, `NaT` for dates/periods) become
  `Option` values;
* scalar Python cell values (as seen by `pd.isna` / `isinstance` dispatch in
  the product-code normalizer) become the `PyVal` sum type.

Each definition is translated from the named source function; deviations
forced by the embedding (e.g. rounding of the binary-float `%f` formatter)
are noted where they occur and are irrelevant to the properties proved.
-/

/-- Python strings, embedded as character lists. -/
abbrev PyStr := List Char

/-- The whitespace characters `str.strip()` removes (the ASCII ones;
the data at hand contains no exotic Unicode spacing). -/
def isPySpace (c : Char) : Bool :=
  c == ' ' || c == '\t' || c == '\n' || c == '\r' || c == '\x0b' || c == '\x0c'

/-- `str.lower()` on one character (ASCII case folding, which is all the
code's comparisons rely on). -/
def pyLowerChar (c : Char) : Char :=
  if 'A' ≤ c ∧ c ≤ 'Z' then Char.ofNat (c.toNat + 32) else c

/-- `str.lower()`. -/
def pyLower (s : PyStr) : PyStr := s.map pyLowerChar

/-- Remove a trailing run of characters satisfying `p` (the tail half of
`str.strip()`), written structurally so that it computes by reduction. -/
def dropTrail (p : Char → Bool) : PyStr → PyStr
  | [] => []
  | c :: t =>
    let r := dropTrail p t
    if r = [] ∧ p c then [] else c :: r

/-- `str.strip()`: drop leading and trailing whitespace. -/
def pyStrip (s : PyStr) : PyStr := dropTrail isPySpace (s.dropWhile isPySpace)

/-- One decimal digit character. -/
def digitCh : ℕ → Char
  | 0 => '0' | 1 => '1' | 2 => '2' | 3 => '3' | 4 => '4'
  | 5 => '5' | 6 => '6' | 7 => '7' | 8 => '8' | 9 => '9'
  | _ => '0'

/-- Fuel-driven digit rendering (structural so that it reduces in the
kernel); the fuel `n + 1` always suffices. -/
def natToStrAux : ℕ → ℕ → PyStr
  | 0, _ => []
  | fuel + 1, n =>
    if n < 10 then [digitCh n] else natToStrAux fuel (n / 10) ++ [digitCh (n % 10)]

/-- Decimal rendering of a natural number, as Python `str(n)` produces it. -/
def natToStr (n : ℕ) : PyStr := natToStrAux (n + 1) n

/-- Python `str(z)` for an integer. -/
def intToStr (z : ℤ) : PyStr :=
  if z < 0 then '-' :: natToStr z.natAbs else natToStr z.toNat

/-- Split a string at its first `'.'` (`text.split(".", 1)` when a dot is
present): returns the part before and the part after the first dot. -/
def splitDot : PyStr → Option (PyStr × PyStr)
  | [] => none
  | c :: t =>
    if c = '.' then some ([], t)
    else
      match splitDot t with
      | some (i, f) => some (c :: i, f)
      | none => none

/-- `fractional.strip("0") == ""`: the fractional remainder consists only of
zeros (or is empty). -/
def allZeros (s : PyStr) : Bool := s.all (fun c => c == '0')

/-- The nullish spellings the normalizer maps to the empty string
(`{"", "nan", "none", "null"}` after lower-casing). -/
def nullishTokens : List PyStr :=
  [[], ['n', 'a', 'n'], ['n', 'o', 'n', 'e'], ['n', 'u', 'l', 'l']]

/-- Left-pad a digit string with `'0'` up to width `k`. -/
def padZeros (k : ℕ) (s : PyStr) : PyStr := List.replicate (k - s.length) '0' ++ s

/-- Python float scalars as the normalizer distinguishes them:
`pd.isna` catches `nan`, `np.isfinite` rejects the infinities, and finite
values are rationals. -/
inductive PyFloat where
  | nan : PyFloat
  | inf : Bool → PyFloat
  | fin : ℚ → PyFloat
deriving DecidableEq

/-- A Python cell value as dispatched on by `_normalize` inside
`normalize_product_codes`. -/
inductive PyVal where
  | pynone : PyVal
  | pyint : ℤ → PyVal
  | pyfloat : PyFloat → PyVal
  | pystr : PyStr → PyVal
deriving DecidableEq

/-- `f"{value:f}"`: fixed-point rendering with six fractional digits.
The exact tie-breaking of the binary-float formatter is immaterial to every
property proved about it (only the shape `[-]digits.dddddd` matters), so the
rounding is taken as floor of `|q|·10⁶ + 1/2`. -/
def fixedFormat (q : ℚ) : PyStr :=
  let m : ℕ := (Int.floor (|q| * 1000000 + 1 / 2)).toNat
  (if q < 0 then ['-'] else []) ++
    natToStr (m / 1000000) ++ '.' :: padZeros 6 (natToStr (m % 1000000))

/-- The string tail of `_normalize` (`common_returns.normalize_product_codes`
lines 37–45 and the identical copy in `reporting/returns.py`): trim, map the
nullish spellings to the empty string, and strip an all-zero fractional
remainder. -/
def textNorm (s : PyStr) : PyStr :=
  if pyLower (pyStrip s) ∈ nullishTokens then []
  else
    match splitDot (pyStrip s) with
    | some (i, f) => if allZeros f then i else pyStrip s
    | none => pyStrip s

/-- `_normalize` from `normalize_product_codes` (`common_returns.py` lines
26–45; `reporting/returns.py` carries a byte-identical copy): the scalar
product-code normalizer. -/
def normalizeVal : PyVal → PyStr
  | .pynone => []
  | .pyfloat .nan => []
  | .pyint z => intToStr z
  | .pyfloat (.inf _) => []
  | .pyfloat (.fin q) => if q.den = 1 then intToStr q.num else textNorm (fixedFormat q)
  | .pystr s => textNorm s

/-- The margin-percentage normalization applied by
`SalesDataLoader._coerce_numeric` (`data_loader.py` lines 277–287) to each
non-null cell of a percent column: `np.where(x > 1, x / 100, x)`. -/
def percentRule (q : ℚ) : ℚ := if q > 1 then q / 100 else q

/-- C3 counterexample: the margin rule is not idempotent at the non-negative
input 150 — one application gives 1.5, a second application divides again
and gives 0.015. -/
theorem percentRule_not_idempotent_at_150 :
    (0 : ℚ) ≤ 150 ∧ percentRule (percentRule 150) ≠ percentRule 150 := by
  constructor
  · norm_num
  · norm_num [percentRule]

/-- C3 (amended): the margin rule is idempotent for every input between 0
and 100; inputs above 100 are double-divided (see the counterexample), so
the idempotence window is exactly the sub-100 range the source data's
whole-percentage convention occupies. -/
theorem percentRule_idempotent_upto_100 (q : ℚ) (h0 : 0 ≤ q) (h1 : q ≤ 100) :
    percentRule (percentRule q) = percentRule q := by
  unfold percentRule
  by_cases h : q > 1
  · simp only [if_pos h]
    have hq : ¬(q / 100 > 1) := by linarith
    simp [hq]
  · simp [h]

/-- Witness for the amended C3 theorem at the concrete input 50. -/
theorem percentRule_idempotent_upto_100_witness :
    percentRule (percentRule 50) = percentRule 50 :=
  percentRule_idempotent_upto_100 50 (by norm_num) (by norm_num)

/-! ### String-primitive lemmas used to settle the normalizer claims -/

/-- The decimal digit characters. -/
def digitChars : List Char := ['0', '1', '2', '3', '4', '5', '6', '7', '8', '9']

/-- A character is inert for the normalizer: not whitespace, fixed by
lower-casing, not a dot and not the letter `'n'` every nullish token
contains. -/
def safeChar (c : Char) : Bool :=
  !isPySpace c && (pyLowerChar c == c) && !(c == '.') && !(c == 'n')

/-- All characters of a string are inert. -/
def safeStr (s : PyStr) : Prop := ∀ c ∈ s, safeChar c = true

theorem safeChar_spec {c : Char} (h : safeChar c = true) :
    isPySpace c = false ∧ pyLowerChar c = c ∧ c ≠ '.' ∧ c ≠ 'n' := by
  simp only [safeChar, Bool.and_eq_true, Bool.not_eq_true', beq_iff_eq,
    beq_eq_false_iff_ne] at h
  exact ⟨h.1.1.1, h.1.1.2, h.1.2, h.2⟩

theorem digitCh_mem (n : ℕ) : digitCh n ∈ digitChars := by
  rcases n with _ | _ | _ | _ | _ | _ | _ | _ | _ | _ | n <;>
    first
      | decide
      | exact (show ('0' : Char) ∈ digitChars by decide)

theorem digit_safe {c : Char} (h : c ∈ digitChars) : safeChar c = true := by
  fin_cases h <;> decide

theorem natToStrAux_digits :
    ∀ fuel n : ℕ, ∀ c ∈ natToStrAux fuel n, c ∈ digitChars := by
  intro fuel
  induction fuel with
  | zero => intro n c hc; simp [natToStrAux] at hc
  | succ k ih =>
    intro n c hc
    simp only [natToStrAux] at hc
    split at hc
    · simp only [List.mem_singleton] at hc
      exact hc ▸ digitCh_mem n
    · rcases List.mem_append.mp hc with h | h
      · exact ih _ _ h
      · simp only [List.mem_singleton] at h
        exact h ▸ digitCh_mem _

theorem natToStr_digits {n : ℕ} : ∀ c ∈ natToStr n, c ∈ digitChars :=
  natToStrAux_digits _ n

theorem natToStr_ne_nil (n : ℕ) : natToStr n ≠ [] := by
  unfold natToStr natToStrAux
  split <;> simp

theorem intToStr_safe (z : ℤ) : safeStr (intToStr z) := by
  intro c hc
  unfold intToStr at hc
  split at hc
  · rcases List.mem_cons.mp hc with h | h
    · subst h; decide
    · exact digit_safe (natToStr_digits _ h)
  · exact digit_safe (natToStr_digits _ hc)

theorem intToStr_ne_nil (z : ℤ) : intToStr z ≠ [] := by
  unfold intToStr
  split
  · simp
  · exact natToStr_ne_nil _

theorem dropWhile_eq_self_of_all {p : Char → Bool} {l : PyStr}
    (h : ∀ c ∈ l, p c = false) : l.dropWhile p = l := by
  cases l with
  | nil => rfl
  | cons c t => simp [List.dropWhile_cons, h c (by simp)]

theorem dropTrail_eq_self_of_all {p : Char → Bool} {l : PyStr}
    (h : ∀ c ∈ l, p c = false) : dropTrail p l = l := by
  induction l with
  | nil => rfl
  | cons c t ih =>
    have hc := h c (by simp)
    have ht : dropTrail p t = t := ih fun d hd => h d (by simp [hd])
    simp [dropTrail, ht, hc]

theorem pyStrip_eq_self_of_all {s : PyStr}
    (h : ∀ c ∈ s, isPySpace c = false) : pyStrip s = s := by
  unfold pyStrip
  rw [dropWhile_eq_self_of_all h, dropTrail_eq_self_of_all h]

theorem pyLower_eq_self_of_all {s : PyStr}
    (h : ∀ c ∈ s, pyLowerChar c = c) : pyLower s = s :=
  (List.map_congr_left h).trans (List.map_id s)

theorem pyStrip_safe_eq {s : PyStr} (hs : safeStr s) : pyStrip s = s :=
  pyStrip_eq_self_of_all fun c hc => (safeChar_spec (hs c hc)).1

theorem pyLower_safe_eq {s : PyStr} (hs : safeStr s) : pyLower s = s :=
  pyLower_eq_self_of_all fun c hc => (safeChar_spec (hs c hc)).2.1

theorem splitDot_eq_none_of_not_mem {l : PyStr} (h : '.' ∉ l) :
    splitDot l = none := by
  induction l with
  | nil => rfl
  | cons c t ih =>
    have hc : ¬(c = '.') := fun hc => h (by simp [hc])
    have ht := ih fun hm => h (by simp [hm])
    simp [splitDot, hc, ht]

theorem splitDot_some_shape :
    ∀ {l i f : PyStr}, splitDot l = some (i, f) → l = i ++ '.' :: f ∧ '.' ∉ i := by
  intro l
  induction l with
  | nil => intro i f h; simp [splitDot] at h
  | cons c t ih =>
    intro i f h
    simp only [splitDot] at h
    split at h
    · rename_i hc
      injection h with h
      injection h with h1 h2
      subst h1; subst h2
      exact ⟨by simp [hc], by simp⟩
    · rename_i hc
      cases hsd : splitDot t with
      | none => rw [hsd] at h; simp at h
      | some v =>
        rw [hsd] at h
        obtain ⟨i', f'⟩ := v
        simp only at h
        injection h with h
        injection h with h1 h2
        obtain ⟨ht, hni⟩ := ih hsd
        subst h2
        constructor
        · rw [← h1]
          simp [ht]
        · rw [← h1]
          intro hm
          rcases List.mem_cons.mp hm with hm | hm
          · exact hc hm.symm
          · exact hni hm

theorem splitDot_append {a : PyStr} (b : PyStr) (h : '.' ∉ a) :
    splitDot (a ++ '.' :: b) = some (a, b) := by
  induction a with
  | nil => simp [splitDot]
  | cons c a' ih =>
    have hc : ¬(c = '.') := fun hc => h (by simp [hc])
    have := ih fun hm => h (by simp [hm])
    simp [splitDot, hc, this]

theorem dropWhile_idem {p : Char → Bool} (l : PyStr) :
    (l.dropWhile p).dropWhile p = l.dropWhile p := by
  induction l with
  | nil => rfl
  | cons c t ih =>
    by_cases hc : p c = true
    · simp [List.dropWhile_cons, hc, ih]
    · simp [List.dropWhile_cons, hc]

theorem dropTrail_idem {p : Char → Bool} (l : PyStr) :
    dropTrail p (dropTrail p l) = dropTrail p l := by
  induction l with
  | nil => rfl
  | cons c t ih =>
    simp only [dropTrail]
    split
    · rfl
    · rename_i hcond
      simp only [dropTrail, ih]
      split
      · rename_i hcond2
        exact absurd hcond2 hcond
      · rfl

theorem dropWhile_head_fail {p : Char → Bool} :
    ∀ {l : PyStr} {c : Char} {t : PyStr}, l.dropWhile p = c :: t → p c = false := by
  intro l
  induction l with
  | nil => intro c t h; simp at h
  | cons a l' ih =>
    intro c t h
    by_cases ha : p a = true
    · rw [List.dropWhile_cons, if_pos ha] at h
      exact ih h
    · rw [List.dropWhile_cons, if_neg ha] at h
      injection h with h1 _
      rw [← h1]
      exact Bool.not_eq_true _ ▸ Bool.of_not_eq_true ha

theorem dropTrail_head? {p : Char → Bool} (l : PyStr) :
    dropTrail p l = [] ∨ (dropTrail p l).head? = l.head? := by
  cases l with
  | nil => exact Or.inl rfl
  | cons c t =>
    simp only [dropTrail]
    split
    · exact Or.inl rfl
    · exact Or.inr rfl

theorem pyStrip_idem (s : PyStr) : pyStrip (pyStrip s) = pyStrip s := by
  unfold pyStrip
  have hdw : (dropTrail isPySpace (s.dropWhile isPySpace)).dropWhile isPySpace
      = dropTrail isPySpace (s.dropWhile isPySpace) := by
    rcases dropTrail_head? (p := isPySpace) (s.dropWhile isPySpace) with h | h
    · rw [h]; rfl
    · cases hy : dropTrail isPySpace (s.dropWhile isPySpace) with
      | nil => rfl
      | cons c t =>
        rw [hy] at h
        cases hx : s.dropWhile isPySpace with
        | nil => rw [hx] at h; simp at h
        | cons a u =>
          rw [hx] at h
          simp only [List.head?] at h
          injection h with h
          have hfail := dropWhile_head_fail (p := isPySpace) hx
          rw [List.dropWhile_cons, h, hfail]
          simp
  rw [hdw, dropTrail_idem]

theorem mem_pyLower_of_mem {c : Char} {s : PyStr} (h : c ∈ s) :
    pyLowerChar c ∈ pyLower s := List.mem_map_of_mem pyLowerChar h

theorem pyLower_not_token_of_safe {s : PyStr} (hs : safeStr s) (hne : s ≠ []) :
    pyLower s ∉ nullishTokens := by
  intro hmem
  have hn : 'n' ∉ pyLower s := by
    intro hn
    rcases List.mem_map.mp hn with ⟨c, hc, hlc⟩
    obtain ⟨-, hfix, -, hnn⟩ := safeChar_spec (hs c hc)
    rw [hfix] at hlc
    exact hnn hlc
  simp only [nullishTokens, List.mem_cons, List.not_mem_nil, or_false] at hmem
  rcases hmem with h | h | h | h
  · exact hne (List.map_eq_nil_iff.mp h)
  · rw [h] at hn; simp at hn
  · rw [h] at hn; simp at hn
  · rw [h] at hn; simp at hn

theorem textNorm_of_safe {s : PyStr} (hs : safeStr s) (hne : s ≠ [])
    (hdot : '.' ∉ s) : textNorm s = s := by
  unfold textNorm
  rw [pyStrip_safe_eq hs, splitDot_eq_none_of_not_mem hdot,
    if_neg (pyLower_not_token_of_safe hs hne)]

theorem textNorm_intToStr (z : ℤ) : textNorm (intToStr z) = intToStr z := by
  refine textNorm_of_safe (intToStr_safe z) (intToStr_ne_nil z) ?_
  intro hdot
  obtain ⟨-, -, hne, -⟩ := safeChar_spec (intToStr_safe z '.' hdot)
  exact hne rfl

theorem fixedFormat_shape (q : ℚ) :
    ∃ a f : PyStr, fixedFormat q = a ++ '.' :: f ∧ safeStr a ∧ a ≠ [] ∧
      ∀ c ∈ f, c ∈ digitChars := by
  simp only [fixedFormat]
  refine ⟨(if q < 0 then ['-'] else []) ++
      natToStr ((Int.floor (|q| * 1000000 + 1 / 2)).toNat / 1000000),
    padZeros 6 (natToStr ((Int.floor (|q| * 1000000 + 1 / 2)).toNat % 1000000)),
    ?_, ?_, ?_, ?_⟩
  · rw [List.append_assoc]
  · intro c hc
    rcases List.mem_append.mp hc with h | h
    · by_cases hq : q < 0
      · rw [if_pos hq] at h
        rcases List.mem_singleton.mp h with rfl
        decide
      · rw [if_neg hq] at h
        simp at h
    · exact digit_safe (natToStr_digits _ h)
  · intro hnil
    rcases List.append_eq_nil.mp hnil with ⟨-, h2⟩
    exact natToStr_ne_nil _ h2
  · intro c hc
    unfold padZeros at hc
    rcases List.mem_append.mp hc with h | h
    · rw [List.eq_of_mem_replicate h]; decide
    · exact natToStr_digits _ h

theorem textNorm_fixedFormat_idem (q : ℚ) :
    textNorm (textNorm (fixedFormat q)) = textNorm (fixedFormat q) := by
  obtain ⟨a, f, hff, hsafe, hane, hdig⟩ := fixedFormat_shape q
  have hdotA : '.' ∉ a := fun hd => (safeChar_spec (hsafe _ hd)).2.2.1 rfl
  have hnospace : ∀ c ∈ fixedFormat q, isPySpace c = false := by
    intro c hc
    rw [hff] at hc
    rcases List.mem_append.mp hc with h | h
    · exact (safeChar_spec (hsafe _ h)).1
    · rcases List.mem_cons.mp h with h | h
      · rw [h]; decide
      · have hm := hdig _ h
        fin_cases hm <;> decide
  have hstrip : pyStrip (fixedFormat q) = fixedFormat q :=
    pyStrip_eq_self_of_all hnospace
  have hdotff : ('.' : Char) ∈ fixedFormat q := by rw [hff]; simp
  have htok : pyLower (fixedFormat q) ∉ nullishTokens := by
    intro hmem
    have h1 : ('.' : Char) ∈ pyLower (fixedFormat q) := by
      have := List.mem_map_of_mem pyLowerChar hdotff
      rwa [show pyLowerChar '.' = '.' by decide] at this
    have h2 : ∀ t ∈ nullishTokens, ('.' : Char) ∉ t := by decide
    exact h2 _ hmem h1
  have hsplit : splitDot (fixedFormat q) = some (a, f) := by
    rw [hff]; exact splitDot_append f hdotA
  have heq : textNorm (fixedFormat q) = if allZeros f then a else fixedFormat q := by
    unfold textNorm
    rw [hstrip, hsplit, if_neg htok]
  by_cases hz : allZeros f = true
  · rw [heq, if_pos hz]
    by_cases hanil : a = []
    · subst hanil; decide
    · exact textNorm_of_safe hsafe hanil hdotA
  · have h2 : textNorm (fixedFormat q) = fixedFormat q := by rw [heq, if_neg hz]
    rw [h2]
    exact h2

/-- Inputs on which the normalizer is *not* idempotent: strings whose trimmed
text has an all-zero fractional remainder behind the first dot and whose
integer part is non-trivial yet itself trims differently or lower-cases to a
nullish token (e.g. `"nan.0"`). Every other input is idempotent. -/
def badStr (s : PyStr) : Bool :=
  if pyLower (pyStrip s) ∈ nullishTokens then false
  else
    match splitDot (pyStrip s) with
    | some (i, f) =>
      allZeros f &&
        (decide (¬pyStrip i = i) ||
          decide (pyLower i ∈ [['n', 'a', 'n'], ['n', 'o', 'n', 'e'], ['n', 'u', 'l', 'l']]))
    | none => false

theorem splitDot_none_not_mem {l : PyStr} (h : splitDot l = none) : '.' ∉ l := by
  induction l with
  | nil => simp
  | cons c t ih =>
    simp only [splitDot] at h
    split at h
    · simp at h
    · rename_i hc
      intro hm
      rcases List.mem_cons.mp hm with hm | hm
      · exact hc hm.symm
      · cases hx : splitDot t with
        | some v => rw [hx] at h; simp at h
        | none => exact ih hx hm

theorem textNorm_idem_of_not_bad {s : PyStr} (h : badStr s = false) :
    textNorm (textNorm s) = textNorm s := by
  by_cases ht : pyLower (pyStrip s) ∈ nullishTokens
  · have h1 : textNorm s = [] := by unfold textNorm; rw [if_pos ht]
    rw [h1]; decide
  · cases hsd : splitDot (pyStrip s) with
    | none =>
      have h1 : textNorm s = pyStrip s := by unfold textNorm; rw [if_neg ht, hsd]
      have hdot : '.' ∉ pyStrip s := splitDot_none_not_mem hsd
      have hidem := pyStrip_idem s
      have h2 : textNorm (pyStrip s) = pyStrip s := by
        unfold textNorm
        rw [hidem, hsd, if_neg ht]
      rw [h1]
      exact h2
    | some v =>
      obtain ⟨i, f⟩ := v
      obtain ⟨hshape, hdoti⟩ := splitDot_some_shape hsd
      by_cases hz : allZeros f = true
      · have hbad : badStr s =
            (allZeros f &&
              (decide (¬pyStrip i = i) ||
                decide (pyLower i ∈
                  [['n', 'a', 'n'], ['n', 'o', 'n', 'e'], ['n', 'u', 'l', 'l']]))) := by
          unfold badStr
          rw [if_neg ht, hsd]
        rw [hbad, hz, Bool.true_and, Bool.or_eq_false_iff] at h
        obtain ⟨hstripi, htoki⟩ := h
        have hstripi : pyStrip i = i := by
          by_contra hcon
          simp [hcon] at hstripi
        have htoki : pyLower i ∉ [['n', 'a', 'n'], ['n', 'o', 'n', 'e'], ['n', 'u', 'l', 'l']] := by
          intro hcon
          simp [hcon] at htoki
        have h1 : textNorm s = i := by
          unfold textNorm
          rw [if_neg ht, hsd]
          show (if allZeros f = true then i else pyStrip s) = i
          rw [if_pos hz]
        by_cases hinil : i = []
        · rw [h1, hinil]; decide
        · have hlowi : pyLower i ∉ nullishTokens := by
            intro hcon
            simp only [nullishTokens, List.mem_cons, List.not_mem_nil, or_false] at hcon
            rcases hcon with hc | hc | hc | hc
            · exact hinil (List.map_eq_nil_iff.mp hc)
            · exact htoki (by simp [hc])
            · exact htoki (by simp [hc])
            · exact htoki (by simp [hc])
          have h2 : textNorm i = i := by
            unfold textNorm
            rw [hstripi, splitDot_eq_none_of_not_mem hdoti, if_neg hlowi]
          rw [h1]
          exact h2
      · have h1 : textNorm s = pyStrip s := by
          unfold textNorm
          rw [if_neg ht, hsd]
          show (if allZeros f = true then i else pyStrip s) = pyStrip s
          rw [if_neg hz]
        have h2 : textNorm (pyStrip s) = pyStrip s := by
          unfold textNorm
          rw [pyStrip_idem, hsd, if_neg ht]
          show (if allZeros f = true then i else pyStrip s) = pyStrip s
          rw [if_neg hz]
        rw [h1]
        exact h2

/-- The inputs for which idempotence of the product-code normalizer is
asserted: every non-string scalar, and every string except the `badStr`
pattern exposed by the counterexample. -/
def normOk : PyVal → Prop
  | .pystr s => badStr s = false
  | _ => True

/-- C4 counterexample: `normalize` is not idempotent on the string input
`"nan.0"` — the first application strips the all-zero fractional remainder
and yields `"nan"`, which the second application maps to the empty string. -/
theorem normalize_not_idempotent_on_nan_dot_zero :
    normalizeVal (.pystr (normalizeVal (.pystr ['n', 'a', 'n', '.', '0'])))
      ≠ normalizeVal (.pystr ['n', 'a', 'n', '.', '0']) := by decide

/-- C4 (amended): the product-code normalizer is idempotent on every numeric
input and on every string input except those where stripping an all-zero
fractional remainder exposes an untrimmed or nullish integer part (the
counterexample pattern); and it collapses the numeric spellings
`"123"`, `"123.0"` and the integer `123` to the same canonical string. -/
theorem normalizeVal_idem_and_collapse :
    (∀ x : PyVal, normOk x →
        normalizeVal (.pystr (normalizeVal x)) = normalizeVal x) ∧
      normalizeVal (.pystr ['1', '2', '3']) = ['1', '2', '3'] ∧
      normalizeVal (.pystr ['1', '2', '3', '.', '0']) = ['1', '2', '3'] ∧
      normalizeVal (.pyint 123) = ['1', '2', '3'] := by
  refine ⟨?_, by decide, by decide, by decide⟩
  intro x hx
  cases x with
  | pynone => decide
  | pyint z => exact textNorm_intToStr z
  | pyfloat fv =>
    cases fv with
    | nan => decide
    | inf b => cases b <;> decide
    | fin q =>
      by_cases hd : q.den = 1
      · simp only [normalizeVal, if_pos hd]
        exact textNorm_intToStr q.num
      · simp only [normalizeVal, if_neg hd]
        exact textNorm_fixedFormat_idem q
  | pystr s => exact textNorm_idem_of_not_bad hx

/-- Witness for the amended C4 theorem: idempotence at the concrete string
input `"123.0"`. -/
theorem normalizeVal_idem_witness :
    normalizeVal (.pystr (normalizeVal (.pystr ['1', '2', '3', '.', '0'])))
      = normalizeVal (.pystr ['1', '2', '3', '.', '0']) :=
  normalizeVal_idem_and_collapse.1 (.pystr ['1', '2', '3', '.', '0'])
    (show badStr ['1', '2', '3', '.', '0'] = false by decide)

/-! ### Data model: dates, periods, frames produced by `SalesDataLoader` -/

/-- A calendar day (the loader normalizes away time-of-day). -/
structure Date where
  year : ℕ
  month : ℕ
  day : ℕ
deriving DecidableEq

/-- A month period (`pandas` `Period[M]`). -/
structure YM where
  year : ℕ
  month : ℕ
deriving DecidableEq

/-- `dt.to_period("M")`. -/
def Date.toYM (d : Date) : YM := ⟨d.year, d.month⟩

/-- `str(Period)` rendering, `"YYYY-MM"`. -/
def ymStr (p : YM) : PyStr := natToStr p.year ++ '-' :: padZeros 2 (natToStr p.month)

/-- `.astype(str)` on a `Period[M]` column: real months render as
`"YYYY-MM"`, a missing period renders as the sentinel string `"NaT"`. -/
def periodStr : Option YM → PyStr
  | none => ['N', 'a', 'T']
  | some p => ymStr p

/-- Sum of a rational projection over a list. -/
def sumQ {α : Type} (f : α → ℚ) (l : List α) : ℚ := (l.map f).sum

/-- `groupby` over a key: one group per distinct key, each carrying all the
rows with that key.  Group order is immaterial to every claim proved
(outputs that depend on order are re-sorted by the pipelines). -/
def groupBy {α κ : Type} [DecidableEq κ] (key : α → κ) (l : List α) :
    List (κ × List α) :=
  (l.map key).dedup.map fun k => (k, l.filter fun a => key a = k)

/-- One raw sales row, after sheet reading, column renaming and
`_coerce_numeric`'s string-to-number parsing (text cells are `Option PyStr`,
numeric cells are `Option ℚ`; unparseable cells are `none`). -/
structure RawSalesRow where
  data : Option Date
  nr_nota_fiscal : Option PyStr
  categoria : Option PyStr
  cd_anuncio : Option PyStr
  ds_anuncio : Option PyStr
  cd_produto : Option PyStr
  cd_fabricante : Option PyStr
  ds_produto : Option PyStr
  tp_anuncio : Option PyStr
  custo_produto : Option ℚ
  preco_unitario : Option ℚ
  qtd_sku : Option ℚ
  perc_margem_bruta : Option ℚ
  rbld : Option ℚ
  tp_registro : Option PyStr
deriving DecidableEq

/-- One raw return row (the `DEVOLUCAO` sheet family), same conventions. -/
structure RawReturnRow where
  data_venda : Option Date
  data_devolucao : Option Date
  nr_nota_fiscal : Option PyStr
  nr_nota_devolucao : Option PyStr
  categoria : Option PyStr
  cd_anuncio : Option PyStr
  ds_anuncio : Option PyStr
  cd_produto : Option PyStr
  cd_fabricante : Option PyStr
  ds_produto : Option PyStr
  tp_anuncio : Option PyStr
  custo_produto : Option ℚ
  preco_unitario : Option ℚ
  qtd_sku : Option ℚ
  devolucao_receita_bruta : Option ℚ
  tp_registro : Option PyStr
deriving DecidableEq

/-- A normalized sales row as `_enrich` emits it (`data_loader.py` lines
289–399).  The `ano_mes` label column is omitted: it is a pure reformatting
of `periodo` that no claim or downstream computation reads. -/
structure SalesRow where
  data : Option Date
  periodo : Option YM
  categoria : PyStr
  cd_anuncio : PyStr
  ds_anuncio : PyStr
  cd_produto : PyStr
  ds_produto : PyStr
  cd_fabricante : PyStr
  tp_anuncio : PyStr
  nr_nota_fiscal : PyStr
  custo_produto : ℚ
  preco_unitario : ℚ
  qtd_sku : ℚ
  perc_margem_bruta : ℚ
  rbld : ℚ
  qtd_devolvido : ℚ
  devolucao_receita_bruta : ℚ
  receita_bruta_calc : ℚ
  lucro_bruto_estimado : ℚ
  taxa_devolucao : ℚ
deriving DecidableEq

/-- One row of the returns side-table (`returns_data` attr, `_enrich` lines
330–373).  Only `qtd_sku`/`devolucao_receita_bruta` are zero-filled and only
`cd_anuncio`/`ds_anuncio` are string-cleaned there; the other text columns
stay raw. -/
structure ReturnRow where
  data_venda : Option Date
  data_devolucao : Option Date
  periodo_venda : Option YM
  periodo_devolucao : Option YM
  nr_nota_fiscal : Option PyStr
  nr_nota_devolucao : Option PyStr
  categoria : Option PyStr
  cd_anuncio : PyStr
  ds_anuncio : PyStr
  cd_produto : Option PyStr
  cd_fabricante : Option PyStr
  ds_produto : Option PyStr
  tp_anuncio : Option PyStr
  qtd_sku : ℚ
  devolucao_receita_bruta : ℚ
deriving DecidableEq

/-- The loader's result: the normalized sales frame together with the
returns side-table smuggled through `df.attrs["returns_data"]`. -/
structure SalesFrame where
  rows : List SalesRow
  returnsData : List ReturnRow
deriving DecidableEq

/-- `_coerce_numeric` on the sales frame: numeric parsing is already folded
into the raw-row type, so what remains is the percent-column rule applied to
every non-null margin cell. -/
def coerceSales (r : RawSalesRow) : RawSalesRow :=
  { r with perc_margem_bruta := r.perc_margem_bruta.map percentRule }

/-- `series.str.contains(needle, case=False, na=True)`: `begins` is prefix
matching, `hasSub` contiguous-substring matching. -/
def begins : PyStr → PyStr → Bool
  | [], _ => true
  | _ :: _, [] => false
  | c :: p, d :: t => c == d && begins p t

def hasSub (pat : PyStr) : PyStr → Bool
  | [] => pat == []
  | c :: t => begins pat (c :: t) || hasSub pat t

/-- The row-keeping predicate of the `tp_registro` filters in `_enrich`
(lines 297–298 and 333–334): keep when the cell is missing (`na=True`) or
contains the needle case-insensitively. -/
def tpKeep (needle : PyStr) : Option PyStr → Bool
  | none => true
  | some s => hasSub needle (pyLower s)

def vendaNeedle : PyStr := ['v', 'e', 'n', 'd', 'a']

def devolNeedle : PyStr := ['d', 'e', 'v', 'o', 'l']

/-- The text-default pass of `_enrich` (lines 305–321): fill missing cells
with the column default, trim, and for empty-string defaults map the text
`"nan"` back to empty. -/
def textCell (dflt : PyStr) (v : Option PyStr) : PyStr :=
  let t := pyStrip (v.getD dflt)
  if dflt = [] ∧ t = ['n', 'a', 'n'] then [] else t

def semCategoria : PyStr :=
  ['S', 'e', 'm', ' ', 'C', 'a', 't', 'e', 'g', 'o', 'r', 'i', 'a']

def naoInformado : PyStr :=
  ['N', 'a', 'o', ' ', 'i', 'n', 'f', 'o', 'r', 'm', 'a', 'd', 'o']

/-- The per-row processing of the returns frame inside `_enrich` (lines
332–344 and the column selection at 355–373). -/
def prepReturnRow (r : RawReturnRow) : ReturnRow :=
  { data_venda := r.data_venda
    data_devolucao := r.data_devolucao
    periodo_venda := r.data_venda.map Date.toYM
    periodo_devolucao := r.data_devolucao.map Date.toYM
    nr_nota_fiscal := r.nr_nota_fiscal
    nr_nota_devolucao := r.nr_nota_devolucao
    categoria := r.categoria
    cd_anuncio := pyStrip (r.cd_anuncio.getD [])
    ds_anuncio := pyStrip (r.ds_anuncio.getD [])
    cd_produto := r.cd_produto
    cd_fabricante := r.cd_fabricante
    ds_produto := r.ds_produto
    tp_anuncio := r.tp_anuncio
    qtd_sku := r.qtd_sku.getD 0
    devolucao_receita_bruta := r.devolucao_receita_bruta.getD 0 }

/-- The per-invoice-and-product return summary merged into the sales frame
(`_enrich` lines 346–353): group the filtered return rows by the raw
`(nr_nota_fiscal, cd_produto)` pair (pandas drops groups with a missing
key) and sum quantity and revenue. -/
def returnSummary (rets : List RawReturnRow) :
    List ((Option PyStr × Option PyStr) × ℚ × ℚ) :=
  (groupBy (fun r => (r.nr_nota_fiscal, r.cd_produto))
      (rets.filter fun r => r.nr_nota_fiscal.isSome && r.cd_produto.isSome)).map
    fun kg =>
      (kg.1, sumQ (fun r => r.qtd_sku.getD 0) kg.2,
        sumQ (fun r => r.devolucao_receita_bruta.getD 0) kg.2)

/-- The per-row normalization of a kept sales row (`_enrich` lines 300–396):
date/period derivation, text defaults, numeric zero-fills, the left-merge of
the return summary, revenue fallback, estimated profit and the safe
return-rate division `np.divide(..., where=base > 0)` + `nan_to_num`. -/
def mkSalesRow (summary : List ((Option PyStr × Option PyStr) × ℚ × ℚ))
    (r : RawSalesRow) : SalesRow :=
  let nota := textCell [] r.nr_nota_fiscal
  let cdp := textCell [] r.cd_produto
  let m := summary.find? fun t => t.1 = (some nota, some cdp)
  let qtdDev := (m.map fun t => t.2.1).getD 0
  let recDev := (m.map fun t => t.2.2).getD 0
  let preco := r.preco_unitario.getD 0
  let qtd := r.qtd_sku.getD 0
  let margem := r.perc_margem_bruta.getD 0
  let rbld0 := r.rbld.getD 0
  let receitaCalc := preco * qtd
  { data := r.data
    periodo := r.data.map Date.toYM
    categoria := textCell semCategoria r.categoria
    cd_anuncio := textCell [] r.cd_anuncio
    ds_anuncio := textCell [] r.ds_anuncio
    cd_produto := cdp
    ds_produto := textCell [] r.ds_produto
    cd_fabricante := textCell [] r.cd_fabricante
    tp_anuncio := textCell naoInformado r.tp_anuncio
    nr_nota_fiscal := nota
    custo_produto := r.custo_produto.getD 0
    preco_unitario := preco
    qtd_sku := qtd
    perc_margem_bruta := margem
    rbld := if rbld0 ≤ 0 then receitaCalc else rbld0
    qtd_devolvido := qtdDev
    devolucao_receita_bruta := recDev
    receita_bruta_calc := receitaCalc
    lucro_bruto_estimado := receitaCalc * margem
    taxa_devolucao := if qtd > 0 then qtdDev / qtd else 0 }

/-- `SalesDataLoader._enrich` (`data_loader.py` lines 289–399): an empty
sales frame short-circuits with an empty side-table; otherwise the
`tp_registro` filters select the sales/return rows, the return summary is
merged row-wise, and the returns side-table is attached. -/
def enrich (salesDf : List RawSalesRow) (returnsDf : List RawReturnRow) :
    SalesFrame :=
  if salesDf = [] then ⟨[], []⟩
  else
    let kept := salesDf.filter fun r => tpKeep vendaNeedle r.tp_registro
    let rets := returnsDf.filter fun r => tpKeep devolNeedle r.tp_registro
    ⟨kept.map (mkSalesRow (returnSummary rets)), rets.map prepReturnRow⟩

/-- A concrete raw sales row template for counterexamples and witnesses. -/
def sampleSalesRaw : RawSalesRow :=
  { data := some ⟨2024, 1, 15⟩
    nr_nota_fiscal := some ['N', '1']
    categoria := some ['X']
    cd_anuncio := some ['A']
    ds_anuncio := some ['a']
    cd_produto := some ['P']
    cd_fabricante := none
    ds_produto := some ['p']
    tp_anuncio := none
    custo_produto := some 3
    preco_unitario := some 10
    qtd_sku := some 2
    perc_margem_bruta := some (1 / 2)
    rbld := some 20
    tp_registro := none }

/-- A concrete raw return row template for counterexamples and witnesses. -/
def sampleReturnRaw : RawReturnRow :=
  { data_venda := some ⟨2024, 1, 15⟩
    data_devolucao := some ⟨2024, 2, 3⟩
    nr_nota_fiscal := some ['N', '1']
    nr_nota_devolucao := some ['D', '1']
    categoria := some ['X']
    cd_anuncio := some ['A']
    ds_anuncio := some ['a']
    cd_produto := some ['P']
    cd_fabricante := none
    ds_produto := some ['p']
    tp_anuncio := none
    custo_produto := some 3
    preco_unitario := some 10
    qtd_sku := some 1
    devolucao_receita_bruta := some 10
    tp_registro := none }

/-- C2 (amended): on every row the loader emits, the return-rate column is
total (never null/NaN/Inf in the `ℚ` model) and is exactly the safe division
`units_returned / units_sold` when `units_sold > 0`, else `0`; it is
non-negative whenever the merged returned-quantity is non-negative (the code
never clamps a negative returned quantity, see the counterexample). -/
theorem enrich_taxa_safe_division (salesDf : List RawSalesRow)
    (returnsDf : List RawReturnRow) :
    ∀ row ∈ (enrich salesDf returnsDf).rows,
      row.taxa_devolucao =
        (if row.qtd_sku > 0 then row.qtd_devolvido / row.qtd_sku else 0) ∧
      (0 ≤ row.qtd_devolvido → 0 ≤ row.taxa_devolucao) := by
  intro row hrow
  unfold enrich at hrow
  split at hrow
  · simp at hrow
  · simp only at hrow
    rcases List.mem_map.mp hrow with ⟨r, -, rfl⟩
    refine ⟨rfl, ?_⟩
    intro h
    show (0 : ℚ) ≤ if _ > 0 then _ / _ else 0
    split
    · rename_i hpos
      exact div_nonneg h (le_of_lt hpos)
    · exact le_refl 0

/-- Witness for the amended C2 theorem: a concrete one-row load where the
rate evaluates to 1/2, satisfying both conjuncts. -/
theorem enrich_taxa_safe_division_witness :
    (mkSalesRow (returnSummary [sampleReturnRaw]) sampleSalesRaw).taxa_devolucao =
      (if (mkSalesRow (returnSummary [sampleReturnRaw]) sampleSalesRaw).qtd_sku > 0 then
        (mkSalesRow (returnSummary [sampleReturnRaw]) sampleSalesRaw).qtd_devolvido /
          (mkSalesRow (returnSummary [sampleReturnRaw]) sampleSalesRaw).qtd_sku
      else 0) ∧
    (0 ≤ (mkSalesRow (returnSummary [sampleReturnRaw]) sampleSalesRaw).qtd_devolvido →
      0 ≤ (mkSalesRow (returnSummary [sampleReturnRaw]) sampleSalesRaw).taxa_devolucao) := by
  have hrows : (enrich [sampleSalesRaw] [sampleReturnRaw]).rows
      = [mkSalesRow (returnSummary [sampleReturnRaw]) sampleSalesRaw] := rfl
  have hmem : (mkSalesRow (returnSummary [sampleReturnRaw]) sampleSalesRaw)
      ∈ (enrich [sampleSalesRaw] [sampleReturnRaw]).rows := by
    rw [hrows]
    exact List.mem_singleton.mpr rfl
  exact enrich_taxa_safe_division [sampleSalesRaw] [sampleReturnRaw] _ hmem

/-- A return row whose recorded quantity is negative (nothing in the source
data format forbids this; the loader never clamps it). -/
def negReturnRaw : RawReturnRow := { sampleReturnRaw with qtd_sku := some (-1) }

/-- C2 counterexample: with a (merged) negative returned quantity the rate
is negative, refuting the claimed `[0, +∞)` bound — the loader divides
whatever the merge produced. -/
theorem enrich_taxa_negative_counterexample :
    ((enrich [sampleSalesRaw] [negReturnRaw]).rows.map fun r => r.taxa_devolucao)
        = [-(1 / 2)] ∧
      (-(1 / 2) : ℚ) < 0 := by
  have h1 : ((enrich [sampleSalesRaw] [negReturnRaw]).rows.map fun r => r.taxa_devolucao)
      = [if ((2 : ℚ) > 0) then (sumQ (fun r => r.qtd_sku.getD 0) [negReturnRaw]) / 2 else 0] :=
    rfl
  have h2 : sumQ (fun r => r.qtd_sku.getD 0) [negReturnRaw] = -1 := by
    simp [sumQ, negReturnRaw, sampleReturnRaw]
  rw [h1, h2]
  norm_num

/-- C10: when the record-type column is present, the loaded sales frame
holds exactly the input rows whose `tp_registro` contains `"venda"`
case-insensitively or is missing, and the returns side-table exactly the
return rows whose `tp_registro` contains `"devol"` case-insensitively or is
missing; every other row is dropped before any aggregation. -/
theorem enrich_tp_registro_filter (salesDf : List RawSalesRow)
    (returnsDf : List RawReturnRow) (h : salesDf ≠ []) :
    (enrich salesDf returnsDf).rows =
      ((salesDf.filter fun r =>
          match r.tp_registro with
          | none => true
          | some s => hasSub ['v', 'e', 'n', 'd', 'a'] (pyLower s)).map
        (mkSalesRow (returnSummary
          (returnsDf.filter fun r => tpKeep devolNeedle r.tp_registro)))) ∧
    (enrich salesDf returnsDf).returnsData =
      ((returnsDf.filter fun r =>
          match r.tp_registro with
          | none => true
          | some s => hasSub ['d', 'e', 'v', 'o', 'l'] (pyLower s)).map
        prepReturnRow) := by
  unfold enrich
  rw [if_neg h]
  exact ⟨rfl, rfl⟩

/-- Witness for the C10 theorem: concrete two-row frames where exactly the
`"venda"`/`"devol"`-tagged rows survive. -/
theorem enrich_tp_registro_filter_witness :
    (enrich [{ sampleSalesRaw with tp_registro := some ['V', 'e', 'n', 'd', 'a'] },
        { sampleSalesRaw with tp_registro := some ['o', 'u', 't', 'r', 'o'] }]
      [{ sampleReturnRaw with tp_registro := some ['D', 'e', 'v', 'o', 'l'] },
        { sampleReturnRaw with tp_registro := some ['o', 'u', 't', 'r', 'o'] }]).rows
      = (([{ sampleSalesRaw with tp_registro := some ['V', 'e', 'n', 'd', 'a'] },
          { sampleSalesRaw with tp_registro := some ['o', 'u', 't', 'r', 'o'] }].filter
            fun r =>
              match r.tp_registro with
              | none => true
              | some s => hasSub ['v', 'e', 'n', 'd', 'a'] (pyLower s)).map
          (mkSalesRow (returnSummary
            ([{ sampleReturnRaw with tp_registro := some ['D', 'e', 'v', 'o', 'l'] },
              { sampleReturnRaw with tp_registro := some ['o', 'u', 't', 'r', 'o'] }].filter
              fun r => tpKeep devolNeedle r.tp_registro)))) :=
  (enrich_tp_registro_filter _ _ (by simp)).1

/-! ### The loader's control flow (`SalesDataLoader.load`) -/

/-- ASCII digit test (`str.isdigit` on the regex-split digit runs). -/
def isDigitCh (c : Char) : Bool := '0' ≤ c && c ≤ '9'

/-- Parse a digit run (`int(part)`). -/
def strToNat (s : PyStr) : ℕ := s.foldl (fun acc c => acc * 10 + (c.toNat - 48)) 0

/-- One element of `_natural_sort_key`'s key list: `int(part)` for digit
runs, `part.lower()` for the rest. -/
inductive NatKeyPart where
  | num : ℕ → NatKeyPart
  | txt : PyStr → NatKeyPart
deriving DecidableEq

/-- `re.split(r"(\d+)", value)` followed by the int/lower mapping
(`data_loader._natural_sort_key`): alternating text and digit-run parts,
with (possibly empty) text parts at both ends.  Fuel `length + 1` always
suffices (each step consumes at least one character). -/
def natKeyParts : ℕ → PyStr → List NatKeyPart
  | 0, _ => []
  | fuel + 1, s =>
    let pre := s.takeWhile fun c => !isDigitCh c
    let rest := s.dropWhile fun c => !isDigitCh c
    match rest with
    | [] => [.txt (pyLower pre)]
    | _ :: _ =>
      .txt (pyLower pre) :: .num (strToNat (rest.takeWhile isDigitCh)) ::
        natKeyParts fuel (rest.dropWhile isDigitCh)

def natSortKey (s : PyStr) : List NatKeyPart := natKeyParts (s.length + 1) s

/-- Lexicographic string comparison (Python `str` ordering on the
characters' code points). -/
def strLE : PyStr → PyStr → Bool
  | [], _ => true
  | _ :: _, [] => false
  | a :: s, b :: t => if a = b then strLE s t else decide (a < b)

/-- Ordering of key parts.  Python list comparison compares positionally;
on the keys `_natural_sort_key` produces, positions always hold the same
part kind (text at even, digit run at odd indices), so the cross-kind cases
are unreachable and fixed arbitrarily. -/
def partLE : NatKeyPart → NatKeyPart → Bool
  | .num a, .num b => decide (a ≤ b)
  | .txt a, .txt b => strLE a b
  | .num _, .txt _ => true
  | .txt _, .num _ => false

def keyLE : List NatKeyPart → List NatKeyPart → Bool
  | [], _ => true
  | _ :: _, [] => false
  | a :: s, b :: t => if a = b then keyLE s t else partLE a b

/-- Insertion into a sorted list, and insertion sort by a Boolean
comparison.  `sorted(...)` in the source; any correct sort realizes it, and
no claim depends on tie order. -/
def insertSorted {α : Type} (le : α → α → Bool) (a : α) : List α → List α
  | [] => [a]
  | b :: t => if le a b then a :: b :: t else b :: insertSorted le a t

def sortBy {α : Type} (le : α → α → Bool) (l : List α) : List α :=
  l.foldr (insertSorted le) []

theorem mem_insertSorted {α : Type} (le : α → α → Bool) (a x : α) :
    ∀ l : List α, x ∈ insertSorted le a l ↔ x = a ∨ x ∈ l := by
  intro l
  induction l with
  | nil => simp [insertSorted]
  | cons b t ih =>
    simp only [insertSorted]
    split
    · simp [List.mem_cons]
    · simp only [List.mem_cons, ih]
      tauto

theorem mem_sortBy {α : Type} (le : α → α → Bool) (x : α) :
    ∀ l : List α, x ∈ sortBy le l ↔ x ∈ l := by
  intro l
  induction l with
  | nil => simp [sortBy]
  | cons b t ih =>
    simp only [sortBy, List.foldr_cons] at ih ⊢
    rw [mem_insertSorted, ih, List.mem_cons]

theorem sortBy_eq_nil_iff {α : Type} (le : α → α → Bool) (l : List α) :
    sortBy le l = [] ↔ l = [] := by
  cases l with
  | nil => simp [sortBy]
  | cons b t =>
    simp only [sortBy, List.foldr_cons]
    constructor
    · intro h
      have : b ∈ insertSorted le b (t.foldr (insertSorted le) []) :=
        (mem_insertSorted le b b _).mpr (Or.inl rfl)
      rw [h] at this
      simp at this
    · intro h; cases h

/-- `SalesDataLoader._resolve_sheet_names` (lines 169–184) minus the raise:
collect the sheet names starting with the requested prefix (the direct-match
insertion is modelled as written, though a direct match always already
starts with itself) and sort them by the natural key. -/
def resolveSheets (available : List PyStr) (px : PyStr) : List PyStr :=
  let matches0 := available.filter fun n => begins px n
  let withDirect :=
    if px ∈ available ∧ px ∉ matches0 then px :: matches0 else matches0
  sortBy (fun a b => keyLE (natSortKey a) (natSortKey b)) withDirect

/-- The observable state of the cache file for the computed signature:
absent, older than the source file, unreadable/corrupt, or a readable
snapshot. -/
inductive CacheView where
  | absent : CacheView
  | stale : CacheView
  | corrupt : CacheView
  | good : SalesFrame → CacheView
deriving DecidableEq

/-- The environment `load` runs against.  Workbook parsing and column
renaming are abstracted: each sheet name yields its already-typed raw rows.
The progress callback may fail (`Except.error`). -/
structure LoadEnv where
  fileExists : Bool
  sheetNames : List PyStr
  salesSheet : PyStr → List RawSalesRow
  returnSheet : PyStr → List RawReturnRow
  enableCache : Bool
  cacheDirSome : Bool
  cacheState : CacheView
  cb : ℕ → ℕ → Except Unit Unit

inductive LoadError where
  | fileNotFound : LoadError
  | noSheetMatch : LoadError
deriving DecidableEq

/-- `_notify_progress` (lines 220–226): invoke the callback and swallow any
failure. -/
def notifyProgress (env : LoadEnv) (processed total : ℕ) : Unit :=
  match env.cb processed total with
  | .ok _ => ()
  | .error _ => ()

/-- `_try_load_cache` (lines 228–239): disabled cache, missing file, stale
file and unreadable snapshot all degrade to `none` (a soft miss). -/
def tryLoadCache (env : LoadEnv) : Option SalesFrame :=
  if ¬env.enableCache ∨ ¬env.cacheDirSome then none
  else
    match env.cacheState with
    | .good f => some f
    | _ => none

def defaultReturnPx : PyStr := ['D', 'E', 'V', 'O', 'L', 'U', 'C', 'A', 'O']

/-- `SalesDataLoader.load` (lines 130–167): fatal on a missing file or on no
sheet matching the required sales prefix; otherwise resolve both sheet
families, consult the cache (a hit is returned as-is), else read, coerce,
enrich.  `_store_cache` swallows its own failures and does not affect the
returned frame, so it has no observable effect in the model; the returns
prefix is optional (`required=False`) and its absence degrades to an empty
returns frame. -/
def loadModel (env : LoadEnv) (sheetName : PyStr) : Except LoadError SalesFrame :=
  if ¬env.fileExists then .error .fileNotFound
  else if resolveSheets env.sheetNames sheetName = [] then .error .noSheetMatch
  else
    let salesSheets := resolveSheets env.sheetNames sheetName
    let returnSheets := resolveSheets env.sheetNames defaultReturnPx
    let _ := notifyProgress env 0 (salesSheets.length + returnSheets.length + 1)
    match tryLoadCache env with
    | some f => .ok f
    | none =>
      let salesDf := ((salesSheets.map env.salesSheet).flatten).map coerceSales
      let returnsDf :=
        if returnSheets = [] then [] else (returnSheets.map env.returnSheet).flatten
      .ok (enrich salesDf returnsDf)

theorem enrich_returnsData_of_no_returns (salesDf : List RawSalesRow) :
    (enrich salesDf []).returnsData = [] := by
  unfold enrich
  split <;> rfl

/-- C9: the loader errors exactly when the source file is missing or no
sheet matches the required sales prefix; a corrupt cache behaves like an
absent one (full recompute); the result never depends on the progress
callback (its failures are swallowed); and absent return sheets yield a
sales-only result with an empty returns side-table (stated on the recompute
path — a cache hit returns the snapshot as-is). -/
theorem load_error_characterization (env : LoadEnv) (px : PyStr) :
    ((loadModel env px).isOk = true ↔
      (env.fileExists = true ∧ resolveSheets env.sheetNames px ≠ [])) ∧
    (env.cacheState = .corrupt →
      loadModel env px = loadModel { env with cacheState := .absent } px) ∧
    (∀ cb2, loadModel { env with cb := cb2 } px = loadModel env px) ∧
    (resolveSheets env.sheetNames defaultReturnPx = [] →
      tryLoadCache env = none →
      ∀ f, loadModel env px = .ok f → f.returnsData = []) := by
  refine ⟨?_, ?_, ?_, ?_⟩
  · unfold loadModel
    by_cases hf : env.fileExists = true
    · rw [if_neg (by simp [hf])]
      by_cases hr : resolveSheets env.sheetNames px = []
      · rw [if_pos hr]
        simp [hr, Except.isOk, Except.toBool]
      · rw [if_neg hr]
        cases htc : tryLoadCache env <;> simp [htc, hf, hr, Except.isOk, Except.toBool]
    · rw [if_pos (by simp [hf])]
      simp [hf, Except.isOk, Except.toBool]
  · intro h
    unfold loadModel
    unfold tryLoadCache
    rw [h]
  · intro cb2
    rfl
  · intro h1 h2 f hf
    unfold loadModel at hf
    by_cases hfe : env.fileExists = true
    · rw [if_neg (by simp [hfe])] at hf
      by_cases hr : resolveSheets env.sheetNames px = []
      · rw [if_pos hr] at hf
        cases hf
      · rw [if_neg hr] at hf
        rw [h2] at hf
        simp only [h1, if_pos] at hf
        injection hf with hf
        rw [← hf]
        exact enrich_returnsData_of_no_returns _
    · rw [if_pos (by simp [hfe])] at hf
      cases hf

/-- A concrete load environment: one sales sheet, no return sheets, a
corrupt cache, a callback that always throws. -/
def sampleEnv : LoadEnv :=
  { fileExists := true
    sheetNames := [['V', 'E', 'N', 'D', 'A']]
    salesSheet := fun _ => [sampleSalesRaw]
    returnSheet := fun _ => []
    enableCache := true
    cacheDirSome := true
    cacheState := .corrupt
    cb := fun _ _ => .error () }

/-- Witness for the C9 theorem: on the concrete environment the load
succeeds (despite the corrupt cache and the throwing callback), and the
corrupt cache is equivalent to an absent one. -/
theorem load_error_characterization_witness :
    (loadModel sampleEnv ['V', 'E', 'N', 'D', 'A']).isOk = true ∧
      loadModel sampleEnv ['V', 'E', 'N', 'D', 'A'] =
        loadModel { sampleEnv with cacheState := .absent } ['V', 'E', 'N', 'D', 'A'] :=
  ⟨(load_error_characterization sampleEnv _).1.mpr ⟨rfl, by decide⟩,
    (load_error_characterization sampleEnv _).2.1 rfl⟩

/-! ### Returns reporting (`analysis/reporting/returns.py`) -/

/-- NumPy/pandas `.round` banker's rounding on `ℚ` (round half to even). -/
def roundHalfEven (x : ℚ) : ℤ :=
  let f := Int.floor x
  let r := x - f
  if r < 1 / 2 then f else if r > 1 / 2 then f + 1 else if f % 2 = 0 then f else f + 1

/-- `.round(2)`. -/
def round2 (x : ℚ) : ℚ := (roundHalfEven (x * 100) : ℚ) / 100

/-- `.round(6)` (used by `format_percentage_columns`). -/
def round6 (x : ℚ) : ℚ := (roundHalfEven (x * 1000000) : ℚ) / 1000000

/-- `_normalize` on an object cell: `pd.isna` sends a missing cell to the
empty string, a present string goes through the text rules. -/
def normCellOpt : Option PyStr → PyStr
  | none => []
  | some s => textNorm s

/-- `.astype(str)` on an object cell: a missing value renders as `"nan"`. -/
def strRepr : Option PyStr → PyStr
  | none => ['n', 'a', 'n']
  | some s => s

/-- One row of `_build_sales_totals`' output: the `(period, product)` sales
aggregate. -/
structure SalesTotalRow where
  periodo : PyStr
  cd_produto : PyStr
  itens_vendidos : ℚ
deriving DecidableEq

/-- `_build_sales_totals` (`returns.py` lines 142–175): stringify the
period (the `NaT` sentinel included — the loader frame carries a `Period`
column), normalize product codes, sum the detected units column
(`qtd_sku`) per `(periodo, cd_produto)` group. -/
def buildSalesTotals (df : List SalesRow) : List SalesTotalRow :=
  if df = [] then []
  else
    (groupBy (fun r => (periodStr r.periodo, textNorm r.cd_produto)) df).map
      fun kg =>
        { periodo := kg.1.1
          cd_produto := kg.1.2
          itens_vendidos := sumQ (fun r => r.qtd_sku) kg.2 }

/-- The allowed-period set of `build_return_analysis` (line 86):
`set(sales_totals["periodo"].unique())` — note no `"NaT"` exclusion here. -/
def analysisAvailablePeriods (salesBase : List SalesRow) : List PyStr :=
  ((buildSalesTotals salesBase).map (·.periodo)).dedup

/-- A prepared return record (`_prepare_returns_dataset` output). -/
structure PrepRow where
  periodo_venda : Option YM
  periodo_devolucao : Option YM
  cd_produto : PyStr
  ds_produto : PyStr
  nr_nota_fiscal : PyStr
  pedido_devolucao_id : PyStr
  qtd_sku : ℚ
  devolucao_receita_bruta : ℚ
  categoria : Option PyStr
  data_venda : Option Date
deriving DecidableEq

/-- `_prepare_returns_dataset` on one row (`returns.py` lines 178–212):
zero-fills are already carried by the side-table row; normalize the product
code, clean `ds_produto`/`nr_nota_fiscal`, keep the period columns (already
`Period[M]`), and build `pedido_devolucao_id`: the trimmed return invoice
(with the exact spellings `"nan"`/`"None"` mapped to empty) when non-empty,
else the trimmed sale invoice.  The final
`.fillna("").astype(str).str.strip()` is a no-op on these already-trimmed
strings (`pyStrip` is idempotent). -/
def prepareRow (r : ReturnRow) : PrepRow :=
  let nota := pyStrip (strRepr r.nr_nota_fiscal)
  let dev0 := pyStrip (strRepr r.nr_nota_devolucao)
  let dev := if dev0 = ['n', 'a', 'n'] ∨ dev0 = ['N', 'o', 'n', 'e'] then [] else dev0
  { periodo_venda := r.periodo_venda
    periodo_devolucao := r.periodo_devolucao
    cd_produto := normCellOpt r.cd_produto
    ds_produto := pyStrip (strRepr r.ds_produto)
    nr_nota_fiscal := nota
    pedido_devolucao_id := if dev ≠ [] then dev else nota
    qtd_sku := r.qtd_sku
    devolucao_receita_bruta := r.devolucao_receita_bruta
    categoria := r.categoria
    data_venda := r.data_venda }

def prepareReturns (returnsDf : List ReturnRow) : List PrepRow :=
  returnsDf.map prepareRow

/-- The grouped return aggregate of `_build_return_view` (lines 263–273):
per `(periodo, cd_produto, ds_produto)`, total units, total revenue, and the
number of distinct `pedido_devolucao_id` values (`nunique`). -/
structure DevolAgg where
  periodo : PyStr
  cd_produto : PyStr
  ds_produto : PyStr
  itens_devolvidos : ℚ
  receita_devolucao : ℚ
  pedidos_devolvidos : ℕ
deriving DecidableEq

/-- One output row of `_build_return_view` (the label columns
`ano`/`mes_extenso`/`mes_abreviado` are pure reformatting of `periodo` and
are omitted). -/
structure ViewRow where
  periodo : PyStr
  cd_produto : PyStr
  ds_produto : PyStr
  itens_vendidos : ℚ
  itens_devolvidos : ℚ
  pedidos_devolvidos : ℕ
  receita_devolucao : ℚ
  taxa_devolucao : ℚ
deriving DecidableEq

/-- The groupby of `_build_return_view` (lines 263–273). -/
def aggReturns (sel : PrepRow → Option YM) (working : List PrepRow) :
    List DevolAgg :=
  (groupBy (fun r => (periodStr (sel r), r.cd_produto, r.ds_produto)) working).map
    fun kg =>
      { periodo := kg.1.1
        cd_produto := kg.1.2.1
        ds_produto := kg.1.2.2
        itens_devolvidos := sumQ (fun r => r.qtd_sku) kg.2
        receita_devolucao := sumQ (fun r => r.devolucao_receita_bruta) kg.2
        pedidos_devolvidos := ((kg.2.map (·.pedido_devolucao_id)).dedup).length }

/-- The left merge of the return aggregates with the sales lookup (lines
284–289): each aggregate row is paired with every lookup row sharing its
`(periodo, cd_produto)` key, or with `none` when there is no match (pandas
duplicates left rows on duplicate right keys). -/
def mergeSalesLookup (devol : List DevolAgg) (lookup : List SalesTotalRow) :
    List (DevolAgg × Option ℚ) :=
  (devol.map fun d =>
    let ms := lookup.filter fun t => t.periodo = d.periodo ∧ t.cd_produto = d.cd_produto
    if ms = [] then [(d, none)] else ms.map fun t => (d, some t.itens_vendidos)).flatten

/-- The NaN-repair branch of `_build_return_view` (lines 291–322): when the
first merge left holes, re-merge against totals rebuilt from the sales base
and prefer the original value (`np.where(notna, orig, from_sales)`), then
zero-fill. -/
def repairMerge (direct : List SalesTotalRow) (merged : List (DevolAgg × Option ℚ)) :
    List (DevolAgg × ℚ) :=
  (merged.map fun dv =>
    let ms := direct.filter fun t => t.periodo = dv.1.periodo ∧ t.cd_produto = dv.1.cd_produto
    if ms = [] then [(dv.1, dv.2.getD 0)]
    else ms.map fun t => (dv.1, match dv.2 with | some v => v | none => t.itens_vendidos)).flatten

/-- Row ordering of the view (`sort_values(["periodo", "cd_produto"])`). -/
def viewLE (a b : ViewRow) : Bool :=
  if a.periodo = b.periodo then strLE a.cd_produto b.cd_produto
  else strLE a.periodo b.periodo

/-- The working set of `_build_return_view` (lines 251–261): drop rows with
a missing period and apply the period filter when it is truthy (a `None`
filter and an empty set both skip filtering). -/
def pfTruthy : Option (List PyStr) → Bool
  | some ps => ps ≠ []
  | none => false

def viewWorking (returnsP : List PrepRow) (sel : PrepRow → Option YM)
    (periodFilter : Option (List PyStr)) : List PrepRow :=
  if pfTruthy periodFilter then
    (returnsP.filter fun r => (sel r).isSome).filter
      fun r => periodStr (sel r) ∈ periodFilter.getD []
  else returnsP.filter fun r => (sel r).isSome

/-- The sales lookup of `_build_return_view` (lines 276–282): fall back to
totals rebuilt from the sales base when the passed totals frame is empty,
then stringify periods (already strings here) and re-normalize the product
codes. -/
def viewLookup (salesTotals : List SalesTotalRow) (salesBase : List SalesRow) :
    List SalesTotalRow :=
  (if salesTotals = [] ∧ salesBase ≠ [] then buildSalesTotals salesBase
   else salesTotals).map
    fun t => { t with cd_produto := textNorm t.cd_produto }

/-- The merge-plus-repair of `_build_return_view` (lines 284–325): left
merge, and when holes remain re-merge against totals rebuilt from the sales
base (preferring the original value), then zero-fill. -/
def viewFixed (devol : List DevolAgg) (lookup : List SalesTotalRow)
    (salesBase : List SalesRow) : List (DevolAgg × ℚ) :=
  if ¬((mergeSalesLookup devol lookup).any fun dv => dv.2.isNone) then
    (mergeSalesLookup devol lookup).map fun dv => (dv.1, dv.2.getD 0)
  else if salesBase = [] then
    (mergeSalesLookup devol lookup).map fun dv => (dv.1, dv.2.getD 0)
  else
    repairMerge
      ((buildSalesTotals salesBase).map fun t =>
        { t with cd_produto := textNorm t.cd_produto })
      (mergeSalesLookup devol lookup)

/-- The final row assembly (lines 324–349): the rate is computed from the
unrounded values, the quantity/revenue columns are rounded to 2 decimals. -/
def viewRowOf (dv : DevolAgg × ℚ) : ViewRow :=
  { periodo := dv.1.periodo
    cd_produto := dv.1.cd_produto
    ds_produto := dv.1.ds_produto
    itens_vendidos := round2 dv.2
    itens_devolvidos := round2 dv.1.itens_devolvidos
    pedidos_devolvidos := dv.1.pedidos_devolvidos
    receita_devolucao := round2 dv.1.receita_devolucao
    taxa_devolucao :=
      if dv.2 > 0 then dv.1.itens_devolvidos / dv.2 else 0 }

/-- `_build_return_view` (`returns.py` lines 233–349): drop rows with a
missing period, apply the (truthy) period filter, aggregate, merge sales
totals by `(periodo, cd_produto)` — never by invoice — repair any merge
holes from the sales base, compute the safe return rate and sort. -/
def buildReturnView (returnsP : List PrepRow) (sel : PrepRow → Option YM)
    (salesTotals : List SalesTotalRow) (salesBase : List SalesRow)
    (periodFilter : Option (List PyStr)) : List ViewRow :=
  if returnsP.filter (fun r => (sel r).isSome) = [] then []
  else if viewWorking returnsP sel periodFilter = [] then []
  else
    sortBy viewLE
      ((viewFixed (aggReturns sel (viewWorking returnsP sel periodFilter))
          (viewLookup salesTotals salesBase) salesBase).map viewRowOf)

/-- `_filter_by_category` (`returns.py` lines 114–120; the identical copies
in the other pipelines share this embedding): Python falsiness — `None` and
the empty string both mean "no filter". -/
def filterByCategory (df : List SalesRow) (category : Option PyStr) :
    List SalesRow :=
  match category with
  | none => df
  | some c => if c = [] then df else df.filter fun r => r.categoria = c

/-- `_filter_returns_dataset` (lines 123–128): the returns side-table keeps
its own raw `categoria` cells; a missing cell never equals the filter. -/
def filterReturnsByCategory (rets : List ReturnRow) (category : Option PyStr) :
    List ReturnRow :=
  match category with
  | none => rets
  | some c => if c = [] then rets else rets.filter fun r => r.categoria = some c

/-- `format_percentage_columns` on a numeric rate column: round to 6
decimals (the column is numeric and non-null here, so the fill is a no-op). -/
def formatPctView (rows : List ViewRow) : List ViewRow :=
  rows.map fun r => { r with taxa_devolucao := round6 r.taxa_devolucao }

/-- `build_return_analysis` (`returns.py` lines 74–111): category-filter
both sides, pre-aggregate sales totals, collect the available sale periods,
prepare returns and build the two monthly views (tied to the sale month and
tied to the return month). -/
def buildReturnAnalysis (frame : SalesFrame) (category : Option PyStr) :
    List ViewRow × List ViewRow :=
  let salesBase := filterByCategory frame.rows category
  let retsF := filterReturnsByCategory frame.returnsData category
  let salesTotals := buildSalesTotals salesBase
  let avail := analysisAvailablePeriods salesBase
  let prepared := prepareReturns retsF
  (formatPctView
      (buildReturnView prepared (·.periodo_venda) salesTotals salesBase (some avail)),
    formatPctView
      (buildReturnView prepared (·.periodo_devolucao) salesTotals salesBase
        (if avail = [] then none else some avail)))

/-! ### Structural lemmas about the grouping/merge stages -/

theorem mem_groupBy_key {α κ : Type} [DecidableEq κ] {key : α → κ} {l : List α}
    {kg : κ × List α} (h : kg ∈ groupBy key l) :
    kg.1 ∈ l.map key ∧ kg.2 = l.filter fun a => key a = kg.1 := by
  unfold groupBy at h
  rcases List.mem_map.mp h with ⟨k, hk, hkg⟩
  rw [← hkg]
  exact ⟨List.mem_dedup.mp hk, rfl⟩

theorem groupBy_mem_of_key {α κ : Type} [DecidableEq κ] {key : α → κ} {l : List α}
    {k : κ} (h : k ∈ l.map key) :
    (k, l.filter fun a => key a = k) ∈ groupBy key l :=
  List.mem_map_of_mem _ (List.mem_dedup.mpr h)

theorem aggReturns_exists_of_mem {sel : PrepRow → Option YM}
    {working : List PrepRow} {r : PrepRow} (hr : r ∈ working) :
    ∃ d ∈ aggReturns sel working,
      d.periodo = periodStr (sel r) ∧ d.cd_produto = r.cd_produto ∧
        d.ds_produto = r.ds_produto := by
  have hkey : (periodStr (sel r), r.cd_produto, r.ds_produto)
      ∈ working.map fun x => (periodStr (sel x), x.cd_produto, x.ds_produto) :=
    List.mem_map_of_mem _ hr
  have hg := @groupBy_mem_of_key PrepRow _ _
    (fun x : PrepRow => (periodStr (sel x), x.cd_produto, x.ds_produto)) _ _ hkey
  exact ⟨_, List.mem_map_of_mem _ hg, rfl, rfl, rfl⟩

theorem mem_aggReturns_fields {sel : PrepRow → Option YM} {working : List PrepRow}
    {d : DevolAgg} (h : d ∈ aggReturns sel working) :
    (d.periodo, d.cd_produto, d.ds_produto) ∈
        working.map (fun r => (periodStr (sel r), r.cd_produto, r.ds_produto)) ∧
      d.pedidos_devolvidos =
        (((working.filter fun r =>
            periodStr (sel r) = d.periodo ∧ r.cd_produto = d.cd_produto ∧
              r.ds_produto = d.ds_produto).map (·.pedido_devolucao_id)).dedup).length := by
  unfold aggReturns at h
  rcases List.mem_map.mp h with ⟨kg, hkg, hd⟩
  obtain ⟨hk1, hk2⟩ := mem_groupBy_key hkg
  subst hd
  constructor
  · simpa using hk1
  · simp only [hk2]
    have hfe : (working.filter fun a =>
          decide ((periodStr (sel a), a.cd_produto, a.ds_produto) = kg.1))
        = working.filter fun r =>
          decide (periodStr (sel r) = kg.1.1 ∧ r.cd_produto = kg.1.2.1 ∧
            r.ds_produto = kg.1.2.2) := by
      apply List.filter_congr
      intro r _
      simp [Prod.ext_iff]
    rw [hfe]

theorem buildSalesTotals_exists_key {df : List SalesRow} {s : SalesRow}
    (hs : s ∈ df) :
    ∃ t ∈ buildSalesTotals df,
      t.periodo = periodStr s.periodo ∧ t.cd_produto = textNorm s.cd_produto := by
  unfold buildSalesTotals
  rw [if_neg (List.ne_nil_of_mem hs)]
  have hkey : (periodStr s.periodo, textNorm s.cd_produto)
      ∈ df.map fun x => (periodStr x.periodo, textNorm x.cd_produto) :=
    List.mem_map_of_mem _ hs
  have hg := @groupBy_mem_of_key SalesRow _ _
    (fun x : SalesRow => (periodStr x.periodo, textNorm x.cd_produto)) _ _ hkey
  exact ⟨_, List.mem_map_of_mem _ hg, rfl, rfl⟩

theorem mem_buildSalesTotals_fields {df : List SalesRow} {t : SalesTotalRow}
    (h : t ∈ buildSalesTotals df) :
    (t.periodo, t.cd_produto) ∈
        df.map (fun s => (periodStr s.periodo, textNorm s.cd_produto)) ∧
      t.itens_vendidos =
        sumQ (fun s => s.qtd_sku)
          (df.filter fun s =>
            periodStr s.periodo = t.periodo ∧ textNorm s.cd_produto = t.cd_produto) := by
  unfold buildSalesTotals at h
  split at h
  · simp at h
  · rcases List.mem_map.mp h with ⟨kg, hkg, ht⟩
    obtain ⟨hk1, hk2⟩ := mem_groupBy_key hkg
    subst ht
    constructor
    · simpa using hk1
    · simp only [hk2]
      have hfe : (df.filter fun a =>
            decide ((periodStr a.periodo, textNorm a.cd_produto) = kg.1))
          = df.filter fun s =>
            decide (periodStr s.periodo = kg.1.1 ∧ textNorm s.cd_produto = kg.1.2) := by
        apply List.filter_congr
        intro r _
        simp [Prod.ext_iff]
      rw [hfe]

theorem buildSalesTotals_keys_nodup (df : List SalesRow) :
    ((buildSalesTotals df).map fun t => (t.periodo, t.cd_produto)).Nodup := by
  unfold buildSalesTotals
  split
  · simp
  · unfold groupBy
    rw [List.map_map, List.map_map]
    exact List.Nodup.map_on (fun x _ y _ h => h) (List.nodup_dedup _)

theorem mergeSalesLookup_fst_mem {devol : List DevolAgg}
    {lookup : List SalesTotalRow} {x : DevolAgg × Option ℚ}
    (h : x ∈ mergeSalesLookup devol lookup) : x.1 ∈ devol := by
  unfold mergeSalesLookup at h
  rcases List.mem_flatten.mp h with ⟨inner, hin, hx⟩
  rcases List.mem_map.mp hin with ⟨d, hd, hfd⟩
  rw [← hfd] at hx
  dsimp only at hx
  split at hx
  · rcases List.mem_singleton.mp hx with rfl
    exact hd
  · rcases List.mem_map.mp hx with ⟨t, -, ht⟩
    rw [← ht]
    exact hd

theorem repairMerge_fst_mem {direct : List SalesTotalRow}
    {merged : List (DevolAgg × Option ℚ)} {y : DevolAgg × ℚ}
    (h : y ∈ repairMerge direct merged) : ∃ x ∈ merged, y.1 = x.1 := by
  unfold repairMerge at h
  rcases List.mem_flatten.mp h with ⟨inner, hin, hy⟩
  rcases List.mem_map.mp hin with ⟨dv, hdv, hfd⟩
  rw [← hfd] at hy
  dsimp only at hy
  split at hy
  · rcases List.mem_singleton.mp hy with rfl
    exact ⟨dv, hdv, rfl⟩
  · rcases List.mem_map.mp hy with ⟨t, -, ht⟩
    rw [← ht]
    exact ⟨dv, hdv, rfl⟩

theorem viewFixed_fst_mem {devol : List DevolAgg} {lookup : List SalesTotalRow}
    {base : List SalesRow} {dv : DevolAgg × ℚ}
    (h : dv ∈ viewFixed devol lookup base) : dv.1 ∈ devol := by
  unfold viewFixed at h
  split at h
  · rcases List.mem_map.mp h with ⟨x, hx, hdx⟩
    rw [← hdx]
    exact mergeSalesLookup_fst_mem hx
  · split at h
    · rcases List.mem_map.mp h with ⟨x, hx, hdx⟩
      rw [← hdx]
      exact mergeSalesLookup_fst_mem hx
    · rcases repairMerge_fst_mem h with ⟨x, hx, hdx⟩
      rw [hdx]
      exact mergeSalesLookup_fst_mem hx

theorem mem_mergeSalesLookup_of_filter_eq {devol : List DevolAgg}
    {lookup : List SalesTotalRow} {d : DevolAgg} {t : SalesTotalRow}
    (hd : d ∈ devol)
    (hft : (lookup.filter fun u =>
      u.periodo = d.periodo ∧ u.cd_produto = d.cd_produto) = [t]) :
    (d, some t.itens_vendidos) ∈ mergeSalesLookup devol lookup := by
  unfold mergeSalesLookup
  apply List.mem_flatten.mpr
  refine ⟨[(d, some t.itens_vendidos)], ?_, List.mem_singleton.mpr rfl⟩
  have : (fun d : DevolAgg =>
      let ms := lookup.filter fun u =>
        u.periodo = d.periodo ∧ u.cd_produto = d.cd_produto
      if ms = [] then [(d, (none : Option ℚ))]
      else ms.map fun t => (d, some t.itens_vendidos)) d
      = [(d, some t.itens_vendidos)] := by
    simp only [hft]
    simp
  rw [← this]
  exact List.mem_map_of_mem _ hd

theorem mem_mergeSalesLookup_of_filter_nil {devol : List DevolAgg}
    {lookup : List SalesTotalRow} {d : DevolAgg}
    (hd : d ∈ devol)
    (hft : (lookup.filter fun u =>
      u.periodo = d.periodo ∧ u.cd_produto = d.cd_produto) = []) :
    (d, (none : Option ℚ)) ∈ mergeSalesLookup devol lookup := by
  unfold mergeSalesLookup
  apply List.mem_flatten.mpr
  refine ⟨[(d, none)], ?_, List.mem_singleton.mpr rfl⟩
  have : (fun d : DevolAgg =>
      let ms := lookup.filter fun u =>
        u.periodo = d.periodo ∧ u.cd_produto = d.cd_produto
      if ms = [] then [(d, (none : Option ℚ))]
      else ms.map fun t => (d, some t.itens_vendidos)) d
      = [(d, none)] := by
    simp only [hft]
    simp
  rw [← this]
  exact List.mem_map_of_mem _ hd

theorem mem_viewFixed_of_some {devol : List DevolAgg} {lookup : List SalesTotalRow}
    {base : List SalesRow} {d : DevolAgg} {x : ℚ}
    (h : (d, some x) ∈ mergeSalesLookup devol lookup) :
    (d, x) ∈ viewFixed devol lookup base := by
  unfold viewFixed
  split
  · have := List.mem_map_of_mem (fun dv : DevolAgg × Option ℚ => (dv.1, dv.2.getD 0)) h
    simpa using this
  · split
    · have := List.mem_map_of_mem (fun dv : DevolAgg × Option ℚ => (dv.1, dv.2.getD 0)) h
      simpa using this
    · unfold repairMerge
      apply List.mem_flatten.mpr
      set direct := (buildSalesTotals base).map fun t =>
        { t with cd_produto := textNorm t.cd_produto } with hdir
      by_cases hms : (direct.filter fun u =>
          u.periodo = d.periodo ∧ u.cd_produto = d.cd_produto) = []
      · refine ⟨[(d, x)], ?_, List.mem_singleton.mpr rfl⟩
        have : (fun dv : DevolAgg × Option ℚ =>
            let ms := direct.filter fun u =>
              u.periodo = dv.1.periodo ∧ u.cd_produto = dv.1.cd_produto
            if ms = [] then [(dv.1, dv.2.getD 0)]
            else ms.map fun t =>
              (dv.1, match dv.2 with | some v => v | none => t.itens_vendidos))
            (d, some x) = [(d, x)] := by
          simp only [hms]
          simp
        rw [← this]
        exact List.mem_map_of_mem _ h
      · rcases List.exists_cons_of_ne_nil hms with ⟨t0, ts, hts⟩
        refine ⟨((t0 :: ts).map fun _ => (d, x)), ?_, by simp⟩
        have : (fun dv : DevolAgg × Option ℚ =>
            let ms := direct.filter fun u =>
              u.periodo = dv.1.periodo ∧ u.cd_produto = dv.1.cd_produto
            if ms = [] then [(dv.1, dv.2.getD 0)]
            else ms.map fun t =>
              (dv.1, match dv.2 with | some v => v | none => t.itens_vendidos))
            (d, some x) = ((t0 :: ts).map fun _ => (d, x)) := by
          simp only [hts]
          simp
        rw [← this]
        exact List.mem_map_of_mem _ h

theorem mem_viewFixed_of_none {devol : List DevolAgg} {lookup : List SalesTotalRow}
    {base : List SalesRow} {d : DevolAgg}
    (h : (d, (none : Option ℚ)) ∈ mergeSalesLookup devol lookup)
    (hdirect : base ≠ [] →
      (((buildSalesTotals base).map fun t =>
          { t with cd_produto := textNorm t.cd_produto }).filter fun u =>
        u.periodo = d.periodo ∧ u.cd_produto = d.cd_produto) = []) :
    (d, (0 : ℚ)) ∈ viewFixed devol lookup base := by
  unfold viewFixed
  split
  · rename_i hno
    exfalso
    exact hno (List.any_eq_true.mpr ⟨(d, none), h, rfl⟩)
  · split
    · have := List.mem_map_of_mem (fun dv : DevolAgg × Option ℚ => (dv.1, dv.2.getD 0)) h
      simpa using this
    · rename_i hbase
      unfold repairMerge
      apply List.mem_flatten.mpr
      refine ⟨[(d, 0)], ?_, List.mem_singleton.mpr rfl⟩
      have : (fun dv : DevolAgg × Option ℚ =>
          let ms := ((buildSalesTotals base).map fun t =>
            { t with cd_produto := textNorm t.cd_produto }).filter fun u =>
              u.periodo = dv.1.periodo ∧ u.cd_produto = dv.1.cd_produto
          if ms = [] then [(dv.1, dv.2.getD 0)]
          else ms.map fun t =>
            (dv.1, match dv.2 with | some v => v | none => t.itens_vendidos))
          (d, none) = [(d, 0)] := by
        simp only [hdirect hbase]
        simp
      rw [← this]
      exact List.mem_map_of_mem _ h

theorem mem_buildReturnView_intro {returnsP : List PrepRow}
    {sel : PrepRow → Option YM} {salesTotals : List SalesTotalRow}
    {salesBase : List SalesRow} {pf : Option (List PyStr)} {dv : DevolAgg × ℚ}
    (hw0 : returnsP.filter (fun r => (sel r).isSome) ≠ [])
    (hw : viewWorking returnsP sel pf ≠ [])
    (h : dv ∈ viewFixed (aggReturns sel (viewWorking returnsP sel pf))
      (viewLookup salesTotals salesBase) salesBase) :
    viewRowOf dv ∈ buildReturnView returnsP sel salesTotals salesBase pf := by
  unfold buildReturnView
  rw [if_neg hw0, if_neg hw]
  exact (mem_sortBy _ _ _).mpr (List.mem_map_of_mem _ h)

theorem mem_buildReturnView_elim {returnsP : List PrepRow}
    {sel : PrepRow → Option YM} {salesTotals : List SalesTotalRow}
    {salesBase : List SalesRow} {pf : Option (List PyStr)} {row : ViewRow}
    (h : row ∈ buildReturnView returnsP sel salesTotals salesBase pf) :
    ∃ dv ∈ viewFixed (aggReturns sel (viewWorking returnsP sel pf))
      (viewLookup salesTotals salesBase) salesBase, row = viewRowOf dv := by
  unfold buildReturnView at h
  split at h
  · simp at h
  · split at h
    · simp at h
    · rcases List.mem_map.mp ((mem_sortBy _ _ _).mp h) with ⟨dv, hdv, heq⟩
      exact ⟨dv, hdv, heq.symm⟩

theorem mem_viewWorking_isSome {returnsP : List PrepRow}
    {sel : PrepRow → Option YM} {pf : Option (List PyStr)} {r : PrepRow}
    (h : r ∈ viewWorking returnsP sel pf) : (sel r).isSome = true := by
  unfold viewWorking at h
  split at h
  · exact (List.mem_filter.mp (List.mem_filter.mp h).1).2
  · exact (List.mem_filter.mp h).2

/-! ### The shared period×product totals builder (`common_returns.py`) -/

/-- Split a string at the first occurrence of a character. -/
def splitChar (ch : Char) : PyStr → Option (PyStr × PyStr)
  | [] => none
  | c :: t =>
    if c = ch then some ([], t)
    else
      match splitChar ch t with
      | some (i, f) => some (c :: i, f)
      | none => none

/-- `pd.to_datetime(..., errors="coerce").dt.to_period("M")` as it acts on
the stringified period column fed to `build_period_product_totals` by its
call sites: a `"YYYY-MM"` string parses back to that month, anything else
(notably the `"NaT"` sentinel) coerces to a missing period. -/
def parseYM (s : PyStr) : Option YM :=
  match splitChar '-' s with
  | some (y, m) =>
    if y ≠ [] ∧ y.all isDigitCh ∧ m ≠ [] ∧ m.all isDigitCh then
      some ⟨strToNat y, strToNat m⟩
    else none
  | none => none

/-- The builder's effective allowed-period set (`common_returns.py` line
113): drop falsy strings and the `"nat"` spelling case-insensitively. -/
def allowedStrSet (allowed : List PyStr) : List PyStr :=
  allowed.filter fun p => p ≠ [] ∧ pyLower p ≠ ['n', 'a', 't']

/-- Input row shape of `build_period_product_totals` at its three call
sites (`potential.py`, `low_cost.py`, `top_history.py`): a string period
column, the product code, the units column `qtd_sku`, and the
returned-revenue column summed through `extra_aggs`. -/
structure PPInRow where
  periodo : PyStr
  cd_produto : PyStr
  qtd_sku : ℚ
  devolucao_receita_bruta : ℚ
deriving DecidableEq

/-- Output row: the unit sum, the order count (`__rows__` sum) and the
extra revenue sum, with call-site-specific column names abstracted to one
shape. -/
structure PPTotalsRow where
  periodo : PyStr
  cd_produto : PyStr
  total_unidades : ℚ
  total_pedidos : ℕ
  receita : ℚ
deriving DecidableEq

/-- `build_period_product_totals` (`common_returns.py` lines 82–159),
specialized to the column configuration every call site uses: re-resolve the
period column (a reparse of the period strings), stringify, filter to the
truthy allowed set with `""`/`"nat"` removed, normalize product codes, group
by `(periodo, cd_produto)` and sum units, row count and revenue.
The period re-resolution pass of the builder (lines 109–110): -/
def ppResolved (df : List PPInRow) : List PPInRow :=
  df.map fun r => { r with periodo := periodStr (parseYM r.periodo) }

/-- The truthy allowed-period filter of the builder (lines 112–121). -/
def ppFiltered (df : List PPInRow) (allowed : Option (List PyStr)) :
    List PPInRow :=
  match allowed with
  | some al =>
    if al ≠ [] then (ppResolved df).filter fun r => r.periodo ∈ allowedStrSet al
    else ppResolved df
  | none => ppResolved df

/-- `build_period_product_totals`, assembled from the passes above. -/
def buildPeriodProductTotals (df : List PPInRow) (allowed : Option (List PyStr)) :
    List PPTotalsRow :=
  if df = [] then []
  else if ppFiltered df allowed = [] then []
  else
    (groupBy (fun r => (r.periodo, r.cd_produto))
        ((ppFiltered df allowed).map fun r =>
          { r with cd_produto := textNorm r.cd_produto })).map
      fun kg =>
        { periodo := kg.1.1
          cd_produto := kg.1.2
          total_unidades := sumQ (fun r => r.qtd_sku) kg.2
          total_pedidos := kg.2.length
          receita := sumQ (fun r => r.devolucao_receita_bruta) kg.2 }

/-- The allowed-period set of `build_potential_sku_analysis` (`potential.py`
lines 61–65): stringified non-missing periods, with falsy and `"nat"`
entries dropped. -/
def potentialAllowedPeriods (data : List SalesRow) : List PyStr :=
  ((((data.map (·.periodo)).filterMap id).map ymStr).filter
    fun p => p ≠ [] ∧ pyLower p ≠ ['n', 'a', 't']).dedup

/-- A loader sales row whose date (and hence period) failed to parse. -/
def noPeriodSalesRow : SalesRow :=
  { data := none
    periodo := none
    categoria := ['X']
    cd_anuncio := []
    ds_anuncio := []
    cd_produto := ['P']
    ds_produto := []
    cd_fabricante := []
    tp_anuncio := []
    nr_nota_fiscal := []
    custo_produto := 0
    preco_unitario := 0
    qtd_sku := 1
    perc_margem_bruta := 0
    rbld := 0
    qtd_devolvido := 0
    devolucao_receita_bruta := 0
    receita_bruta_calc := 0
    lucro_bruto_estimado := 0
    taxa_devolucao := 0 }

/-- A prepared return row derived from the sample raw return row. -/
def samplePrep : PrepRow := prepareRow (prepReturnRow sampleReturnRaw)

/-- C6 counterexample: the returns analysis builds its allowed-period set as
`set(sales_totals["periodo"].unique())` with no `"NaT"` exclusion, so a
sales row with an unparseable date puts the sentinel into that set. -/
theorem returns_allowed_periods_contain_sentinel :
    periodStr none ∈ analysisAvailablePeriods [noPeriodSalesRow] := by decide

/-- C6 (amended): the `"NaT"` sentinel never enters the potential analysis's
allowed-period set nor the shared builder's effective allowed set; the
returns analysis's available-period set *can* contain the sentinel (see the
counterexample), but its linked views drop missing-period rows before any
counting, so every emitted view row carries a real `"YYYY-MM"` month. -/
theorem missing_period_sentinel_excluded :
    (∀ data : List SalesRow, periodStr none ∉ potentialAllowedPeriods data) ∧
    (∀ allowed : List PyStr, periodStr none ∉ allowedStrSet allowed) ∧
    (∀ (returnsP : List PrepRow) (sel : PrepRow → Option YM)
        (salesTotals : List SalesTotalRow) (salesBase : List SalesRow)
        (pf : Option (List PyStr)),
      ∀ row ∈ buildReturnView returnsP sel salesTotals salesBase pf,
        ∃ ym : YM, row.periodo = ymStr ym) := by
  refine ⟨?_, ?_, ?_⟩
  · intro data h
    unfold potentialAllowedPeriods at h
    have h2 := (List.mem_filter.mp (List.mem_dedup.mp h)).2
    simp only [decide_eq_true_eq] at h2
    exact h2.2 (by decide)
  · intro allowed h
    have h2 := (List.mem_filter.mp h).2
    simp only [decide_eq_true_eq] at h2
    exact h2.2 (by decide)
  · intro returnsP sel salesTotals salesBase pf row hrow
    rcases mem_buildReturnView_elim hrow with ⟨dv, hdv, hre⟩
    have hd1 := viewFixed_fst_mem hdv
    have hk := (mem_aggReturns_fields hd1).1
    rcases List.mem_map.mp hk with ⟨r, hr, hkey⟩
    have hsome := mem_viewWorking_isSome hr
    rcases Option.isSome_iff_exists.mp hsome with ⟨ym, hym⟩
    refine ⟨ym, ?_⟩
    have : dv.1.periodo = periodStr (sel r) := by
      have := congrArg Prod.fst hkey
      simpa using this.symm
    rw [hre]
    show dv.1.periodo = ymStr ym
    rw [this, hym]
    rfl

/-- Witness for the amended C6 theorem at concrete inputs: the sentinel is
absent from both sets, and the single row of a concrete view carries a real
month. -/
theorem missing_period_sentinel_excluded_witness :
    periodStr none ∉ potentialAllowedPeriods [noPeriodSalesRow] ∧
    periodStr none ∉ allowedStrSet [periodStr none, ymStr ⟨2024, 1⟩] ∧
    ∃ ym : YM,
      ((buildReturnView [samplePrep] (fun r => r.periodo_venda) [] [] none).head
        (by decide)).periodo = ymStr ym :=
  ⟨missing_period_sentinel_excluded.1 _,
    missing_period_sentinel_excluded.2.1 _,
    missing_period_sentinel_excluded.2.2 _ _ _ _ _ _ (List.head_mem _)⟩

/-- C7: the distinct-returned-order identifier equals the return's own
trimmed invoice number whenever that is non-empty (with the exact spellings
`"nan"`/`"None"` treated as empty), else the originating sale's trimmed
invoice number; and every view aggregate's returned-order count is the
number of distinct identifiers in its `(periodo, cd_produto, ds_produto)`
group. -/
theorem pedido_devolucao_id_policy :
    (∀ r : ReturnRow,
      (prepareRow r).pedido_devolucao_id =
        (if pyStrip (strRepr r.nr_nota_devolucao) ≠ [] ∧
            pyStrip (strRepr r.nr_nota_devolucao) ≠ ['n', 'a', 'n'] ∧
            pyStrip (strRepr r.nr_nota_devolucao) ≠ ['N', 'o', 'n', 'e'] then
          pyStrip (strRepr r.nr_nota_devolucao)
        else pyStrip (strRepr r.nr_nota_fiscal))) ∧
    (∀ (returnsP : List PrepRow) (sel : PrepRow → Option YM)
        (salesTotals : List SalesTotalRow) (salesBase : List SalesRow)
        (pf : Option (List PyStr)),
      ∀ row ∈ buildReturnView returnsP sel salesTotals salesBase pf,
        row.pedidos_devolvidos =
          ((((viewWorking returnsP sel pf).filter fun r =>
              periodStr (sel r) = row.periodo ∧ r.cd_produto = row.cd_produto ∧
                r.ds_produto = row.ds_produto).map
            (·.pedido_devolucao_id)).dedup).length) := by
  constructor
  · intro r
    simp only [prepareRow]
    by_cases h1 : pyStrip (strRepr r.nr_nota_devolucao) = ['n', 'a', 'n'] ∨
        pyStrip (strRepr r.nr_nota_devolucao) = ['N', 'o', 'n', 'e']
    · rw [if_pos h1]
      have hcond : ¬(pyStrip (strRepr r.nr_nota_devolucao) ≠ [] ∧
          pyStrip (strRepr r.nr_nota_devolucao) ≠ ['n', 'a', 'n'] ∧
          pyStrip (strRepr r.nr_nota_devolucao) ≠ ['N', 'o', 'n', 'e']) := by
        rcases h1 with h1 | h1 <;> simp [h1]
      rw [if_neg hcond]
      simp
    · rw [if_neg h1]
      obtain ⟨hnan, hnone⟩ := not_or.mp h1
      by_cases h2 : pyStrip (strRepr r.nr_nota_devolucao) = []
      · rw [if_neg (by simp [h2]), if_neg (by simp [h2])]
      · rw [if_pos h2, if_pos ⟨h2, hnan, hnone⟩]
  · intro returnsP sel salesTotals salesBase pf row hrow
    rcases mem_buildReturnView_elim hrow with ⟨dv, hdv, rfl⟩
    exact (mem_aggReturns_fields (viewFixed_fst_mem hdv)).2

/-- The single row of the concrete sample view. -/
def sampleViewRow : ViewRow :=
  (buildReturnView [samplePrep] (fun r => r.periodo_venda) [] [] none).head
    (by decide)

/-- Witness for the C7 theorem: the identifier policy at the sample return
row, and the distinct count on the single row of the concrete view. -/
theorem pedido_devolucao_id_policy_witness :
    (prepareRow (prepReturnRow sampleReturnRaw)).pedido_devolucao_id =
      (if pyStrip (strRepr (prepReturnRow sampleReturnRaw).nr_nota_devolucao) ≠ [] ∧
          pyStrip (strRepr (prepReturnRow sampleReturnRaw).nr_nota_devolucao) ≠
            ['n', 'a', 'n'] ∧
          pyStrip (strRepr (prepReturnRow sampleReturnRaw).nr_nota_devolucao) ≠
            ['N', 'o', 'n', 'e'] then
        pyStrip (strRepr (prepReturnRow sampleReturnRaw).nr_nota_devolucao)
      else pyStrip (strRepr (prepReturnRow sampleReturnRaw).nr_nota_fiscal)) ∧
    sampleViewRow.pedidos_devolvidos =
      ((((viewWorking [samplePrep] (fun r => r.periodo_venda) none).filter fun r =>
          periodStr (r.periodo_venda) = sampleViewRow.periodo ∧
            r.cd_produto = sampleViewRow.cd_produto ∧
            r.ds_produto = sampleViewRow.ds_produto).map
        (·.pedido_devolucao_id)).dedup).length :=
  ⟨pedido_devolucao_id_policy.1 _,
    pedido_devolucao_id_policy.2 [samplePrep] (fun r => r.periodo_venda) [] [] none
      sampleViewRow (List.head_mem _)⟩

theorem mem_viewWorking_intro {returnsP : List PrepRow}
    {sel : PrepRow → Option YM} {pf : Option (List PyStr)} {r : PrepRow}
    (hr : r ∈ returnsP) (hs : (sel r).isSome = true)
    (hpf : pfTruthy pf = true → periodStr (sel r) ∈ pf.getD []) :
    r ∈ viewWorking returnsP sel pf := by
  unfold viewWorking
  split
  · rename_i ht
    refine List.mem_filter.mpr ⟨List.mem_filter.mpr ⟨hr, hs⟩, ?_⟩
    simpa using hpf ht
  · exact List.mem_filter.mpr ⟨hr, hs⟩

theorem buildSalesTotals_ne_nil {df : List SalesRow} (h : df ≠ []) :
    buildSalesTotals df ≠ [] := by
  rcases List.exists_cons_of_ne_nil h with ⟨s, t, rfl⟩
  rcases buildSalesTotals_exists_key (List.mem_cons_self s t) with ⟨u, hu, -⟩
  exact List.ne_nil_of_mem hu

theorem viewLookup_buildSalesTotals (b : List SalesRow) :
    viewLookup (buildSalesTotals b) b
      = (buildSalesTotals b).map fun t =>
        { t with cd_produto := textNorm t.cd_produto } := by
  unfold viewLookup
  rw [if_neg]
  rintro ⟨hh1, hh2⟩
  exact buildSalesTotals_ne_nil hh2 hh1

theorem renorm_totals_id {df : List SalesRow}
    (hg : ∀ s ∈ df, badStr s.cd_produto = false) :
    ((buildSalesTotals df).map fun t =>
        { t with cd_produto := textNorm t.cd_produto })
      = buildSalesTotals df := by
  have hpt : ∀ t ∈ buildSalesTotals df,
      ({ t with cd_produto := textNorm t.cd_produto } : SalesTotalRow) = t := by
    intro t ht
    rcases List.mem_map.mp (mem_buildSalesTotals_fields ht).1 with ⟨s, hs, hkey⟩
    have hcd : textNorm s.cd_produto = t.cd_produto := congrArg Prod.snd hkey
    have hidem := textNorm_idem_of_not_bad (hg s hs)
    have hfix : textNorm t.cd_produto = t.cd_produto := by
      rw [← hcd]
      exact hidem
    obtain ⟨a, b, c⟩ := t
    simp only at hfix
    simp [hfix]
  exact (List.map_congr_left hpt).trans (List.map_id _)

theorem filter_totals_singleton {l : List SalesTotalRow}
    (hnd : (l.map fun t => (t.periodo, t.cd_produto)).Nodup)
    {t : SalesTotalRow} (ht : t ∈ l) :
    (l.filter fun u => u.periodo = t.periodo ∧ u.cd_produto = t.cd_produto) = [t] := by
  induction l with
  | nil => cases ht
  | cons a l' ih =>
    rw [List.map_cons, List.nodup_cons] at hnd
    obtain ⟨hna, hnd'⟩ := hnd
    rcases List.mem_cons.mp ht with rfl | ht'
    · have hnil : (l'.filter fun u =>
          u.periodo = t.periodo ∧ u.cd_produto = t.cd_produto) = [] := by
        rw [List.filter_eq_nil_iff]
        intro u hu
        simp only [decide_eq_true_eq]
        rintro ⟨hp, hc⟩
        apply hna
        have hm : (u.periodo, u.cd_produto)
            ∈ l'.map fun v => (v.periodo, v.cd_produto) :=
          List.mem_map_of_mem _ hu
        rw [hp, hc] at hm
        exact hm
      rw [List.filter_cons, if_pos (by simp), hnil]
    · have hpa : ¬(a.periodo = t.periodo ∧ a.cd_produto = t.cd_produto) := by
        rintro ⟨hp, hc⟩
        apply hna
        have hm : (t.periodo, t.cd_produto)
            ∈ l'.map fun v => (v.periodo, v.cd_produto) :=
          List.mem_map_of_mem _ ht'
        rw [← hp, ← hc] at hm
        exact hm
      rw [List.filter_cons, if_neg (by simpa using hpa)]
      exact ih hnd' ht'

theorem filter_totals_nil {l : List SalesTotalRow} {ps p : PyStr}
    (h : ∀ u ∈ l, ¬(u.periodo = ps ∧ u.cd_produto = p)) :
    (l.filter fun u => u.periodo = ps ∧ u.cd_produto = p) = [] := by
  rw [List.filter_eq_nil_iff]
  intro u hu
  simpa using h u hu

theorem totals_filter_nil_of_no_sales {salesBase : List SalesRow} {ps p : PyStr}
    (hex : ∀ s ∈ salesBase,
      ¬(periodStr s.periodo = ps ∧ textNorm s.cd_produto = p)) :
    ((buildSalesTotals salesBase).filter fun u =>
      u.periodo = ps ∧ u.cd_produto = p) = [] := by
  apply filter_totals_nil
  rintro u hu ⟨hup, huc⟩
  rcases List.mem_map.mp (mem_buildSalesTotals_fields hu).1 with ⟨s, hs, hkey⟩
  have h1 : (periodStr s.periodo, textNorm s.cd_produto) = (u.periodo, u.cd_produto) :=
    hkey
  exact hex s hs ⟨(congrArg Prod.fst h1).trans hup, (congrArg Prod.snd h1).trans huc⟩

theorem view_row_for_return {retFrame : List ReturnRow} {salesBase : List SalesRow}
    {pf : Option (List PyStr)} {r : ReturnRow} {ym : YM}
    (hr : r ∈ retFrame) (hp : r.periodo_venda = some ym)
    (hpf : pfTruthy pf = true → ymStr ym ∈ pf.getD [])
    (hgood : ∀ s ∈ salesBase, badStr s.cd_produto = false) :
    ∃ row ∈ buildReturnView (prepareReturns retFrame) (fun x => x.periodo_venda)
        (buildSalesTotals salesBase) salesBase pf,
      row.periodo = ymStr ym ∧ row.cd_produto = normCellOpt r.cd_produto ∧
        row.itens_vendidos = round2 (sumQ (fun s => s.qtd_sku)
          (salesBase.filter fun s =>
            periodStr s.periodo = ymStr ym ∧
              textNorm s.cd_produto = normCellOpt r.cd_produto)) := by
  have hprm : prepareRow r ∈ prepareReturns retFrame := List.mem_map_of_mem _ hr
  have hsel : (prepareRow r).periodo_venda = some ym := hp
  have hsome : ((prepareRow r).periodo_venda).isSome = true := by rw [hsel]; rfl
  have hwmem : prepareRow r ∈
      viewWorking (prepareReturns retFrame) (fun x => x.periodo_venda) pf := by
    apply mem_viewWorking_intro hprm hsome
    intro ht
    rw [hsel]
    exact hpf ht
  have hw0 : (prepareReturns retFrame).filter
      (fun x => (x.periodo_venda).isSome) ≠ [] :=
    List.ne_nil_of_mem (List.mem_filter.mpr ⟨hprm, hsome⟩)
  have hwne : viewWorking (prepareReturns retFrame) (fun x => x.periodo_venda) pf ≠ [] :=
    List.ne_nil_of_mem hwmem
  rcases @aggReturns_exists_of_mem (fun x => x.periodo_venda) _ _ hwmem with
    ⟨d, hd, hdp, hdc, hds⟩
  have hdp2 : d.periodo = ymStr ym := by rw [hdp, hsel]; rfl
  have hdc2 : d.cd_produto = normCellOpt r.cd_produto := hdc
  have hlookup : viewLookup (buildSalesTotals salesBase) salesBase
      = buildSalesTotals salesBase :=
    (viewLookup_buildSalesTotals _).trans (renorm_totals_id hgood)
  by_cases hex : ∃ s ∈ salesBase, periodStr s.periodo = ymStr ym ∧
      textNorm s.cd_produto = normCellOpt r.cd_produto
  · rcases hex with ⟨s, hs, hsp, hsc⟩
    rcases buildSalesTotals_exists_key hs with ⟨t, ht, htp, htc⟩
    have htp2 : t.periodo = ymStr ym := htp.trans hsp
    have htc2 : t.cd_produto = normCellOpt r.cd_produto := htc.trans hsc
    have hfilter : ((viewLookup (buildSalesTotals salesBase) salesBase).filter fun u =>
        u.periodo = d.periodo ∧ u.cd_produto = d.cd_produto) = [t] := by
      rw [hlookup, hdp2, hdc2, ← htp2, ← htc2]
      exact filter_totals_singleton (buildSalesTotals_keys_nodup _) ht
    have hmerged := mem_mergeSalesLookup_of_filter_eq hd hfilter
    have hfixed := @mem_viewFixed_of_some _ _ salesBase _ _ hmerged
    refine ⟨viewRowOf (d, t.itens_vendidos),
      mem_buildReturnView_intro hw0 hwne hfixed, hdp2, hdc2, ?_⟩
    have hval := (mem_buildSalesTotals_fields ht).2
    show round2 t.itens_vendidos = _
    rw [hval, htp2, htc2]
  · have hex2 : ∀ s ∈ salesBase, ¬(periodStr s.periodo = ymStr ym ∧
        textNorm s.cd_produto = normCellOpt r.cd_produto) := by
      intro s hs hcon
      exact hex ⟨s, hs, hcon⟩
    have hfilter : ((viewLookup (buildSalesTotals salesBase) salesBase).filter fun u =>
        u.periodo = d.periodo ∧ u.cd_produto = d.cd_produto) = [] := by
      rw [hlookup, hdp2, hdc2]
      exact totals_filter_nil_of_no_sales hex2
    have hmerged := mem_mergeSalesLookup_of_filter_nil hd hfilter
    have hfixed : (d, (0 : ℚ)) ∈
        viewFixed (aggReturns (fun x => x.periodo_venda)
            (viewWorking (prepareReturns retFrame) (fun x => x.periodo_venda) pf))
          (viewLookup (buildSalesTotals salesBase) salesBase) salesBase := by
      apply mem_viewFixed_of_none hmerged
      intro hbne
      rw [renorm_totals_id hgood, hdp2, hdc2]
      exact totals_filter_nil_of_no_sales hex2
    refine ⟨viewRowOf (d, 0),
      mem_buildReturnView_intro hw0 hwne hfixed, hdp2, hdc2, ?_⟩
    have hfe : (salesBase.filter fun s => periodStr s.periodo = ymStr ym ∧
        textNorm s.cd_produto = normCellOpt r.cd_produto) = [] := by
      rw [List.filter_eq_nil_iff]
      intro s hs
      simpa using hex2 s hs
    show round2 0 = _
    rw [hfe]
    rfl

/-- C1: the linked view joins returns to sales aggregates by
`(period, product)` and never by invoice: two return records with the same
invoice number but different normalized product codes in the same (allowed)
sale period yield two distinct rows, one per product code, each carrying the
rounded sales total of its own `(period, product)` key.  The sales product
codes are assumed normalizer-stable (`badStr = false`), which rules out the
degenerate `"nan.0"`-style codes under which the view's re-normalization of
the lookup key could collide or drift (see the C4 counterexample). -/
theorem returns_linkage_joins_by_period_product
    (retFrame : List ReturnRow) (salesBase : List SalesRow)
    (pf : Option (List PyStr)) (r1 r2 : ReturnRow) (ym : YM)
    (h1 : r1 ∈ retFrame) (h2 : r2 ∈ retFrame)
    (hinv : r1.nr_nota_fiscal = r2.nr_nota_fiscal)
    (hp1 : r1.periodo_venda = some ym) (hp2 : r2.periodo_venda = some ym)
    (hdiff : normCellOpt r1.cd_produto ≠ normCellOpt r2.cd_produto)
    (hpf : pfTruthy pf = true → ymStr ym ∈ pf.getD [])
    (hgood : ∀ s ∈ salesBase, badStr s.cd_produto = false) :
    ∃ row1 ∈ buildReturnView (prepareReturns retFrame) (fun x => x.periodo_venda)
        (buildSalesTotals salesBase) salesBase pf,
      ∃ row2 ∈ buildReturnView (prepareReturns retFrame) (fun x => x.periodo_venda)
        (buildSalesTotals salesBase) salesBase pf,
      row1 ≠ row2 ∧ row1.periodo = ymStr ym ∧ row2.periodo = ymStr ym ∧
        row1.cd_produto = normCellOpt r1.cd_produto ∧
        row2.cd_produto = normCellOpt r2.cd_produto ∧
        row1.itens_vendidos = round2 (sumQ (fun s => s.qtd_sku)
          (salesBase.filter fun s => periodStr s.periodo = ymStr ym ∧
            textNorm s.cd_produto = normCellOpt r1.cd_produto)) ∧
        row2.itens_vendidos = round2 (sumQ (fun s => s.qtd_sku)
          (salesBase.filter fun s => periodStr s.periodo = ymStr ym ∧
            textNorm s.cd_produto = normCellOpt r2.cd_produto)) := by
  rcases view_row_for_return h1 hp1 hpf hgood with ⟨row1, hm1, ha1, hb1, hc1⟩
  rcases view_row_for_return h2 hp2 hpf hgood with ⟨row2, hm2, ha2, hb2, hc2⟩
  refine ⟨row1, hm1, row2, hm2, ?_, ha1, ha2, hb1, hb2, hc1, hc2⟩
  intro hcon
  apply hdiff
  rw [← hb1, ← hb2, hcon]

/-- A second sample return on the same invoice but a different product. -/
def sampleReturnRawQ : RawReturnRow :=
  { sampleReturnRaw with
    cd_produto := some ['Q']
    nr_nota_devolucao := some ['D', '2'] }

/-- A sales row for product `P` in 2024-01. -/
def pSalesRow : SalesRow :=
  { noPeriodSalesRow with
    data := some ⟨2024, 1, 15⟩
    periodo := some ⟨2024, 1⟩
    cd_produto := ['P']
    qtd_sku := 3 }

/-- Witness for the C1 theorem: two same-invoice returns on products `P`/`Q`
in 2024-01 against a one-row sales base. -/
theorem returns_linkage_joins_by_period_product_witness :
    ∃ row1 ∈ buildReturnView
        (prepareReturns [prepReturnRow sampleReturnRaw, prepReturnRow sampleReturnRawQ])
        (fun x => x.periodo_venda) (buildSalesTotals [pSalesRow]) [pSalesRow] none,
      ∃ row2 ∈ buildReturnView
        (prepareReturns [prepReturnRow sampleReturnRaw, prepReturnRow sampleReturnRawQ])
        (fun x => x.periodo_venda) (buildSalesTotals [pSalesRow]) [pSalesRow] none,
      row1 ≠ row2 ∧ row1.periodo = ymStr ⟨2024, 1⟩ ∧ row2.periodo = ymStr ⟨2024, 1⟩ ∧
        row1.cd_produto = normCellOpt (prepReturnRow sampleReturnRaw).cd_produto ∧
        row2.cd_produto = normCellOpt (prepReturnRow sampleReturnRawQ).cd_produto ∧
        row1.itens_vendidos = round2 (sumQ (fun s => s.qtd_sku)
          ([pSalesRow].filter fun s => periodStr s.periodo = ymStr ⟨2024, 1⟩ ∧
            textNorm s.cd_produto = normCellOpt (prepReturnRow sampleReturnRaw).cd_produto)) ∧
        row2.itens_vendidos = round2 (sumQ (fun s => s.qtd_sku)
          ([pSalesRow].filter fun s => periodStr s.periodo = ymStr ⟨2024, 1⟩ ∧
            textNorm s.cd_produto = normCellOpt (prepReturnRow sampleReturnRawQ).cd_produto)) :=
  returns_linkage_joins_by_period_product
    [prepReturnRow sampleReturnRaw, prepReturnRow sampleReturnRawQ] [pSalesRow] none
    (prepReturnRow sampleReturnRaw) (prepReturnRow sampleReturnRawQ) ⟨2024, 1⟩
    (List.mem_cons_self _ _) (List.mem_cons_of_mem _ (List.mem_cons_self _ _))
    rfl rfl rfl (by decide)
    (fun ht => absurd ht (by decide))
    (by decide)

/-! ### Returns totals of the top-history / low-cost / potential pipelines -/

/-- Lexicographic day ordering. -/
def dateLE (a b : Date) : Bool :=
  if a.year ≠ b.year then decide (a.year < b.year)
  else if a.month ≠ b.month then decide (a.month < b.month)
  else decide (a.day ≤ b.day)

/-- `series.min()` on a date column of a frame: `none` when the frame is
empty (`data_dates.empty` → the bound is `None` and no filter applies),
`some none` when every date is missing (the bound is `NaT`, which is *not*
`None`, so the filter applies and every comparison is false). -/
def minDateOf (l : List (Option Date)) : Option (Option Date) :=
  if l = [] then none
  else
    some ((l.filterMap id).foldr
      (fun d acc =>
        match acc with
        | none => some d
        | some m => some (if dateLE d m then d else m))
      none)

/-- `series.max()`, same conventions. -/
def maxDateOf (l : List (Option Date)) : Option (Option Date) :=
  if l = [] then none
  else
    some ((l.filterMap id).foldr
      (fun d acc =>
        match acc with
        | none => some d
        | some m => some (if dateLE m d then d else m))
      none)

/-- `(prepared["data"] >= min) & (prepared["data"] <= max)`: any comparison
against a missing date is false. -/
def dateInRange (d lo hi : Option Date) : Bool :=
  match d, lo, hi with
  | some x, some l, some h => dateLE l x && dateLE x h
  | _, _, _ => false

/-- The re-normalization and product-scope filter stage shared by
`top_history._compute_returns_totals` (lines 241–254) and
`low_cost._compute_returns_totals` (lines 197–211): re-normalize the
prepared codes, and when the sales frame's product scope is non-empty keep
only returns whose code belongs to it. -/
def spScope (data : List SalesRow) (prepared : List PrepRow) : List PrepRow :=
  if data.map (fun s : SalesRow => s.cd_produto) ≠ [] then
    (prepared.map fun p => { p with cd_produto := textNorm p.cd_produto }).filter
      fun p => p.cd_produto ∈ data.map (fun s : SalesRow => s.cd_produto)
  else prepared.map fun p => { p with cd_produto := textNorm p.cd_produto }

/-- The sale-date range filter stage (top_history lines 256–265, low_cost
lines 213–222). -/
def spDates (data : List SalesRow) (l : List PrepRow) : List PrepRow :=
  match minDateOf (data.map (·.data)), maxDateOf (data.map (·.data)) with
  | some lo, some hi => l.filter fun p => dateInRange p.data_venda lo hi
  | _, _ => l

/-- The truthy allowed-sale-period filter stage (top_history lines 275–277,
low_cost lines 233–235). -/
def spPeriods (allowed : List PyStr) (l : List PrepRow) : List PrepRow :=
  if allowed ≠ [] then l.filter fun p => periodStr p.periodo_venda ∈ allowed
  else l

/-- The full scoped-and-filtered prepared returns both
`_compute_returns_totals` functions feed into the shared builder.  The
intermediate empty-frame early returns of the source collapse to the same
value (every stage maps `[]` to `[]`). -/
def scopedPrepared (data : List SalesRow) (returnsRaw : List ReturnRow)
    (category : Option PyStr) (allowed : List PyStr) : List PrepRow :=
  spPeriods allowed
    (spDates data
      (spScope data (prepareReturns (filterReturnsByCategory returnsRaw category))))

/-- One row of the per-product overall totals (`overall_totals` in
top_history lines 315–326; `aggregated` in low_cost lines 271–282 — same
shape, call-site-specific column names abstracted). -/
structure OverallRow where
  cd_produto : PyStr
  devolucao_total : ℚ
  pedidos_devolvidos_total : ℕ
  receita_devolucao_total : ℚ
deriving DecidableEq

def overallOf (monthly : List PPTotalsRow) : List OverallRow :=
  (groupBy (fun t : PPTotalsRow => t.cd_produto) monthly).map fun kg =>
    { cd_produto := kg.1
      devolucao_total := sumQ (·.total_unidades) kg.2
      pedidos_devolvidos_total := (kg.2.map (·.total_pedidos)).sum
      receita_devolucao_total := sumQ (·.receita) kg.2 }

/-- The PPIn projection of a prepared return row (the string period column
set by the callers plus the columns the builder consumes). -/
def toPPIn (p : PrepRow) : PPInRow :=
  { periodo := periodStr p.periodo_venda
    cd_produto := p.cd_produto
    qtd_sku := p.qtd_sku
    devolucao_receita_bruta := p.devolucao_receita_bruta }

/-- `top_history._compute_returns_totals` (lines 223–327): monthly totals
from the shared builder over the scoped prepared returns, and overall
totals grouped per product. -/
def computeReturnsTotalsTH (data : List SalesRow) (returnsRaw : List ReturnRow)
    (category : Option PyStr) (allowed : List PyStr) :
    List PPTotalsRow × List OverallRow :=
  let monthly :=
    buildPeriodProductTotals
      ((scopedPrepared data returnsRaw category allowed).map toPPIn) none
  (monthly, overallOf monthly)

/-- `low_cost._compute_returns_totals` (lines 179–282): the same scoped
builder pass, collapsed per product. -/
def computeReturnsTotalsLC (data : List SalesRow) (returnsRaw : List ReturnRow)
    (category : Option PyStr) (allowed : List PyStr) : List OverallRow :=
  overallOf
    (buildPeriodProductTotals
      ((scopedPrepared data returnsRaw category allowed).map toPPIn) none)

/-- One row of the potential analysis's monthly grouped frame after the
return totals are merged in (`potential.py` lines 92–128).  The revenue/
cost/margin/price aggregates that no claim touches are omitted. -/
structure PotGroupRow where
  periodo : PyStr
  cd_produto : PyStr
  cd_anuncio : PyStr
  ds_anuncio : PyStr
  qtd_vendida : ℚ
  pedidos : ℕ
  qtd_devolvida : ℚ
  pedidos_devolvidos : ℕ
  receita_devolucao : ℚ
deriving DecidableEq

/-- The grouped sales frame of the potential analysis with return totals
left-merged on `(periodo, cd_produto)` and zero-filled.  The right side's
keys are the builder's group keys and hence unique, so the pandas merge
attaches at most one totals row per group; it is modelled as a lookup. -/
def potentialGrouped (data : List SalesRow) (retTotals : List PPTotalsRow) :
    List PotGroupRow :=
  (groupBy (fun s : SalesRow =>
      (periodStr s.periodo, textNorm s.cd_produto, s.cd_anuncio, s.ds_anuncio))
      data).map fun kg =>
    let m := retTotals.find? fun t =>
      t.periodo = kg.1.1 ∧ t.cd_produto = kg.1.2.1
    { periodo := kg.1.1
      cd_produto := kg.1.2.1
      cd_anuncio := kg.1.2.2.1
      ds_anuncio := kg.1.2.2.2
      qtd_vendida := sumQ (fun s => s.qtd_sku) kg.2
      pedidos := ((kg.2.map (·.nr_nota_fiscal)).dedup).length
      qtd_devolvida := (m.map (·.total_unidades)).getD 0
      pedidos_devolvidos := (m.map (·.total_pedidos)).getD 0
      receita_devolucao := (m.map (·.receita)).getD 0 }

theorem mem_ppFiltered_sub {df : List PPInRow} {al : Option (List PyStr)}
    {q : PPInRow} (h : q ∈ ppFiltered df al) :
    ∃ q0 ∈ df, q.cd_produto = q0.cd_produto := by
  have hres : ∀ x ∈ ppResolved df, ∃ q0 ∈ df, x.cd_produto = q0.cd_produto := by
    intro x hx
    rcases List.mem_map.mp hx with ⟨q0, hq0, hxe⟩
    exact ⟨q0, hq0, by rw [← hxe]⟩
  cases al with
  | none =>
    simp only [ppFiltered] at h
    exact hres _ h
  | some ps =>
    simp only [ppFiltered] at h
    split at h
    · exact hres _ (List.mem_of_mem_filter h)
    · exact hres _ h

theorem mem_buildPeriodProductTotals_cd {df : List PPInRow}
    {al : Option (List PyStr)} {row : PPTotalsRow}
    (h : row ∈ buildPeriodProductTotals df al) :
    ∃ q ∈ df, row.cd_produto = textNorm q.cd_produto := by
  unfold buildPeriodProductTotals at h
  split at h
  · simp at h
  · split at h
    · simp at h
    · rcases List.mem_map.mp h with ⟨kg, hkg, hrow⟩
      have hk := (mem_groupBy_key hkg).1
      rcases List.mem_map.mp hk with ⟨x, hx, hke⟩
      rcases List.mem_map.mp hx with ⟨q1, hq1, hxe⟩
      rcases mem_ppFiltered_sub hq1 with ⟨q0, hq0, hcd⟩
      refine ⟨q0, hq0, ?_⟩
      have h1 : row.cd_produto = kg.1.2 := by rw [← hrow]
      have h2 : kg.1.2 = x.cd_produto := (congrArg Prod.snd hke).symm
      have h3 : x.cd_produto = textNorm q1.cd_produto := by rw [← hxe]
      rw [h1, h2, h3, hcd]

theorem mem_spPeriods_sub {allowed : List PyStr} {l : List PrepRow} {p : PrepRow}
    (h : p ∈ spPeriods allowed l) : p ∈ l := by
  unfold spPeriods at h
  split at h
  · exact List.mem_of_mem_filter h
  · exact h

theorem mem_spDates_sub {data : List SalesRow} {l : List PrepRow} {p : PrepRow}
    (h : p ∈ spDates data l) : p ∈ l := by
  unfold spDates at h
  split at h
  · exact List.mem_of_mem_filter h
  · exact h

theorem mem_filterReturnsByCategory_sub {rets : List ReturnRow}
    {category : Option PyStr} {r : ReturnRow}
    (h : r ∈ filterReturnsByCategory rets category) : r ∈ rets := by
  cases category with
  | none =>
    simp only [filterReturnsByCategory] at h
    exact h
  | some c =>
    simp only [filterReturnsByCategory] at h
    split at h
    · exact h
    · exact List.mem_of_mem_filter h

theorem mem_spScope {data : List SalesRow} {prepared : List PrepRow} {p : PrepRow}
    (h : p ∈ spScope data prepared) :
    (∃ p0 ∈ prepared, p.cd_produto = textNorm p0.cd_produto) ∧
      (data.map (fun s : SalesRow => s.cd_produto) ≠ [] →
        p.cd_produto ∈ data.map (fun s : SalesRow => s.cd_produto)) := by
  unfold spScope at h
  split at h
  · rcases List.mem_filter.mp h with ⟨hmem, hcond⟩
    rcases List.mem_map.mp hmem with ⟨p0, hp0, hpe⟩
    refine ⟨⟨p0, hp0, by rw [← hpe]⟩, fun _ => ?_⟩
    simpa using hcond
  · rename_i hne
    rcases List.mem_map.mp h with ⟨p0, hp0, hpe⟩
    exact ⟨⟨p0, hp0, by rw [← hpe]⟩, fun hs => absurd hs hne⟩

theorem scopedPrepared_cd {data : List SalesRow} {returnsRaw : List ReturnRow}
    {category : Option PyStr} {allowed : List PyStr} {p : PrepRow}
    (hstable : ∀ r ∈ returnsRaw,
      textNorm (normCellOpt r.cd_produto) = normCellOpt r.cd_produto)
    (h : p ∈ scopedPrepared data returnsRaw category allowed) :
    textNorm p.cd_produto = p.cd_produto ∧
      (data.map (fun s : SalesRow => s.cd_produto) ≠ [] →
        p.cd_produto ∈ data.map (fun s : SalesRow => s.cd_produto)) := by
  have hsc := mem_spScope (mem_spDates_sub (mem_spPeriods_sub h))
  rcases hsc.1 with ⟨p0, hp0, hpe⟩
  rcases List.mem_map.mp hp0 with ⟨r0, hr0, hpr⟩
  have hr0' := mem_filterReturnsByCategory_sub hr0
  have hcd0 : p0.cd_produto = normCellOpt r0.cd_produto := by rw [← hpr]; rfl
  have hfix : textNorm p.cd_produto = p.cd_produto := by
    rw [hpe, hcd0, hstable r0 hr0', hstable r0 hr0']
  exact ⟨hfix, hsc.2⟩

theorem mem_overallOf_cd {monthly : List PPTotalsRow} {row : OverallRow}
    (h : row ∈ overallOf monthly) :
    ∃ t ∈ monthly, row.cd_produto = t.cd_produto := by
  unfold overallOf at h
  rcases List.mem_map.mp h with ⟨kg, hkg, hrow⟩
  have hk := (mem_groupBy_key hkg).1
  rcases List.mem_map.mp hk with ⟨t, ht, hke⟩
  refine ⟨t, ht, ?_⟩
  have : row.cd_produto = kg.1 := by rw [← hrow]
  rw [this, ← hke]

/-- C5 (amended): in the top-history and low-cost pipelines, every returns
aggregate surfaced carries a product code inside the category-filtered
sales frame's product scope (their `_compute_returns_totals` filter to that
scope when it is non-empty); in the potential pipeline the left merge onto
the sales groups guarantees the same.  The return codes are assumed
normalizer-stable so the repeated re-normalizations are the identity (the
C4 counterexample pattern is excluded).  The returns analysis itself does
*not* enforce this — see the counterexample. -/
theorem returns_scope_consistency :
    (∀ (data : List SalesRow) (returnsRaw : List ReturnRow)
        (category : Option PyStr) (allowed : List PyStr),
      data.map (fun s : SalesRow => s.cd_produto) ≠ [] →
      (∀ r ∈ returnsRaw,
        textNorm (normCellOpt r.cd_produto) = normCellOpt r.cd_produto) →
      (∀ row ∈ (computeReturnsTotalsTH data returnsRaw category allowed).1,
          row.cd_produto ∈ data.map (fun s : SalesRow => s.cd_produto)) ∧
        ∀ row ∈ (computeReturnsTotalsTH data returnsRaw category allowed).2,
          row.cd_produto ∈ data.map (fun s : SalesRow => s.cd_produto)) ∧
    (∀ (data : List SalesRow) (returnsRaw : List ReturnRow)
        (category : Option PyStr) (allowed : List PyStr),
      data.map (fun s : SalesRow => s.cd_produto) ≠ [] →
      (∀ r ∈ returnsRaw,
        textNorm (normCellOpt r.cd_produto) = normCellOpt r.cd_produto) →
      ∀ row ∈ computeReturnsTotalsLC data returnsRaw category allowed,
        row.cd_produto ∈ data.map (fun s : SalesRow => s.cd_produto)) ∧
    (∀ (data : List SalesRow) (retTotals : List PPTotalsRow),
      ∀ row ∈ potentialGrouped data retTotals,
        row.cd_produto ∈ data.map fun s : SalesRow => textNorm s.cd_produto) := by
  have hmonthly : ∀ (data : List SalesRow) (returnsRaw : List ReturnRow)
      (category : Option PyStr) (allowed : List PyStr),
      data.map (fun s : SalesRow => s.cd_produto) ≠ [] →
      (∀ r ∈ returnsRaw,
        textNorm (normCellOpt r.cd_produto) = normCellOpt r.cd_produto) →
      ∀ row ∈ buildPeriodProductTotals
          ((scopedPrepared data returnsRaw category allowed).map toPPIn) none,
        row.cd_produto ∈ data.map (fun s : SalesRow => s.cd_produto) := by
    intro data returnsRaw category allowed hscope hstable row hrow
    rcases mem_buildPeriodProductTotals_cd hrow with ⟨q, hq, hcd⟩
    rcases List.mem_map.mp hq with ⟨p, hp, hqe⟩
    have hqc : q.cd_produto = p.cd_produto := by rw [← hqe]; rfl
    obtain ⟨hfix, hmem⟩ := scopedPrepared_cd hstable hp
    rw [hcd, hqc, hfix]
    exact hmem hscope
  refine ⟨?_, ?_, ?_⟩
  · intro data returnsRaw category allowed hscope hstable
    refine ⟨hmonthly data returnsRaw category allowed hscope hstable, ?_⟩
    intro row hrow
    rcases mem_overallOf_cd hrow with ⟨t, ht, hte⟩
    rw [hte]
    exact hmonthly data returnsRaw category allowed hscope hstable t ht
  · intro data returnsRaw category allowed hscope hstable row hrow
    rcases mem_overallOf_cd hrow with ⟨t, ht, hte⟩
    rw [hte]
    exact hmonthly data returnsRaw category allowed hscope hstable t ht
  · intro data retTotals row hrow
    unfold potentialGrouped at hrow
    rcases List.mem_map.mp hrow with ⟨kg, hkg, hre⟩
    have hk := (mem_groupBy_key hkg).1
    rcases List.mem_map.mp hk with ⟨s, hs, hke⟩
    have h1 : row.cd_produto = kg.1.2.1 := by rw [← hre]
    have h2 : textNorm s.cd_produto = kg.1.2.1 := by
      have := congrArg (fun x => x.2.1) hke
      simpa using this
    rw [h1, ← h2]
    exact List.mem_map_of_mem _ hs

/-- A category-`X` sales row for product `Q`. -/
def cexSalesX : SalesRow :=
  { noPeriodSalesRow with
    data := some ⟨2024, 1, 10⟩
    periodo := some ⟨2024, 1⟩
    categoria := ['X']
    cd_produto := ['Q']
    qtd_sku := 1 }

/-- A category-`Y` sales row for product `P`. -/
def cexSalesY : SalesRow :=
  { noPeriodSalesRow with
    data := some ⟨2024, 1, 11⟩
    periodo := some ⟨2024, 1⟩
    categoria := ['Y']
    cd_produto := ['P'] }

/-- A category-`X` return of product `P` (which has no category-`X` sales). -/
def cexReturnP : ReturnRow :=
  { data_venda := some ⟨2024, 1, 12⟩
    data_devolucao := some ⟨2024, 2, 1⟩
    periodo_venda := some ⟨2024, 1⟩
    periodo_devolucao := some ⟨2024, 2⟩
    nr_nota_fiscal := some ['N', '9']
    nr_nota_devolucao := some ['D', '9']
    categoria := some ['X']
    cd_anuncio := []
    ds_anuncio := []
    cd_produto := some ['P']
    cd_fabricante := none
    ds_produto := some ['p']
    tp_anuncio := none
    qtd_sku := 1
    devolucao_receita_bruta := 5 }

def cexFrame : SalesFrame := ⟨[cexSalesX, cexSalesY], [cexReturnP]⟩

/-- C5 counterexample: the returns analysis, run with the sales frame
filtered to category `X`, surfaces a return row for product `P` even though
`P` is not in the category-`X` sales scope (the view bounds returns by
category and sale periods, never by product scope). -/
theorem returns_analysis_breaks_scope :
    ((buildReturnAnalysis cexFrame (some ['X'])).1.map fun r => r.cd_produto)
        = [['P']] ∧
      (['P'] : PyStr) ∉
        ((filterByCategory cexFrame.rows (some ['X'])).map fun s =>
          s.cd_produto) := by
  constructor
  · decide
  · decide

/-- Witness for the amended C5 theorem: the top-history monthly totals of a
concrete one-product frame stay inside the sales product scope. -/
theorem returns_scope_consistency_witness :
    ((computeReturnsTotalsTH [pSalesRow] [prepReturnRow sampleReturnRaw] none
        [ymStr ⟨2024, 1⟩]).1.head (by decide)).cd_produto
      ∈ [pSalesRow].map (fun s : SalesRow => s.cd_produto) :=
  (returns_scope_consistency.1 [pSalesRow] [prepReturnRow sampleReturnRaw] none
    [ymStr ⟨2024, 1⟩] (by decide) (by decide)).1 _ (List.head_mem _)

/-! ### The low-cost reputation analysis (`low_cost.py` lines 21–167) -/

/-- The `"mean"` aggregation of a rational column over a group (groups are
non-empty, so the division is by a positive count). -/
def meanQ (l : List ℚ) : ℚ := l.sum / (l.length : ℚ)

/-- The interpolation position `(n - 1) * q` of the pandas default
(`linear`) quantile over `n` sorted values. -/
def qPos (n : ℕ) (q : ℚ) : ℚ := ((n : ℚ) - 1) * q

/-- The sorted value at the floored interpolation position. -/
def qLow (sorted : List ℚ) (q : ℚ) : ℚ :=
  sorted.getD (Int.toNat (Int.floor (qPos sorted.length q))) 0

/-- The next sorted value (clamped to the last index). -/
def qHigh (sorted : List ℚ) (q : ℚ) : ℚ :=
  sorted.getD
    (min (Int.toNat (Int.floor (qPos sorted.length q)) + 1) (sorted.length - 1)) 0

/-- Linear interpolation between the two bracketing sorted values. -/
def qInterp (sorted : List ℚ) (q : ℚ) : ℚ :=
  qLow sorted q +
    (qPos sorted.length q - (Int.floor (qPos sorted.length q) : ℚ)) *
      (qHigh sorted q - qLow sorted q)

/-- `Series.quantile(q)` with the default `linear` interpolation: sort
ascending and interpolate at position `(n - 1) * q`. -/
def quantileQ (vals : List ℚ) (q : ℚ) : ℚ :=
  qInterp (sortBy (fun a b : ℚ => decide (a ≤ b)) vals) q

/-- The category-filtered sales frame with its product codes re-normalized
(`low_cost.py` lines 30–31). -/
def lowCostData (frame : SalesFrame) (category : Option PyStr) : List SalesRow :=
  (filterByCategory frame.rows category).map fun s =>
    { s with cd_produto := textNorm s.cd_produto }

/-- The truthy allowed-period set of the low-cost analysis (lines 32–36):
the stringified period column with falsy and `"nat"` entries dropped. -/
def lcAllowedPeriods (data : List SalesRow) : List PyStr :=
  ((data.map fun s => periodStr s.periodo).filter
    fun p => p ≠ [] ∧ pyLower p ≠ ['n', 'a', 't']).dedup

/-- The per-product return totals merged into the aggregation (line 43);
the `_preco_rbld` pricing column assigned on lines 39–42 feeds only the
`preco_min_unitario_intervalo` output column, which no selection or scoring
step reads. -/
def lowCostReturnTotals (frame : SalesFrame) (category : Option PyStr) :
    List OverallRow :=
  computeReturnsTotalsLC (lowCostData frame category) frame.returnsData category
    (lcAllowedPeriods (lowCostData frame category))

/-- One row of `aggregated` before the returns merge (lines 51–65, minus the
two return-sum columns dropped again on lines 70–74). -/
structure LowCostPreRow where
  cd_anuncio : PyStr
  ds_anuncio : PyStr
  itens_vendidos_total : ℚ
  pedidos_total : ℕ
  receita_total : ℚ
  custo_medio_unitario : ℚ
  custo_produto : ℚ
  margem_media : ℚ
  categoria : PyStr
  cd_produto : PyStr
deriving DecidableEq

/-- The `groupby(["cd_anuncio", "ds_anuncio"])` aggregation (lines 51–65):
unit/revenue/cost sums, invoice `nunique`, cost/margin means and `first`
category and product code per advert. -/
def lowCostAgg (data : List SalesRow) : List LowCostPreRow :=
  (groupBy (fun s : SalesRow => (s.cd_anuncio, s.ds_anuncio)) data).map fun kg =>
    { cd_anuncio := kg.1.1
      ds_anuncio := kg.1.2
      itens_vendidos_total := sumQ (fun s => s.qtd_sku) kg.2
      pedidos_total := ((kg.2.map fun s => s.nr_nota_fiscal).dedup).length
      receita_total := sumQ (fun s => s.rbld) kg.2
      custo_medio_unitario := meanQ (kg.2.map fun s => s.custo_produto)
      custo_produto := sumQ (fun s => s.custo_produto) kg.2
      margem_media := meanQ (kg.2.map fun s => s.perc_margem_bruta)
      categoria := (kg.2.map fun s => s.categoria).headD []
      cd_produto := (kg.2.map fun s => s.cd_produto).headD [] }

/-- One row of `aggregated` after the returns merge and the derived
columns (lines 75–96). -/
structure LowCostAggRow where
  cd_anuncio : PyStr
  ds_anuncio : PyStr
  itens_vendidos_total : ℚ
  pedidos_total : ℕ
  receita_total : ℚ
  custo_medio_unitario : ℚ
  custo_produto : ℚ
  margem_media : ℚ
  categoria : PyStr
  cd_produto : PyStr
  itens_devolvidos_total : ℚ
  pedidos_devolvidos_total : ℕ
  receita_devolucao_total : ℚ
  taxa_devolucao : ℚ
  ticket_medio_estimado : ℚ
deriving DecidableEq

/-- The left merge of the return totals on `cd_produto` (line 75; the right
side's keys are the per-product group keys and hence unique, so the merge is
a lookup), the zero fills (lines 82–85) and the `taxa_devolucao` /
`ticket_medio_estimado` columns (lines 87–96). -/
def lowCostMergeRow (rTotals : List OverallRow) (a : LowCostPreRow) :
    LowCostAggRow :=
  { cd_anuncio := a.cd_anuncio
    ds_anuncio := a.ds_anuncio
    itens_vendidos_total := a.itens_vendidos_total
    pedidos_total := a.pedidos_total
    receita_total := a.receita_total
    custo_medio_unitario := a.custo_medio_unitario
    custo_produto := a.custo_produto
    margem_media := a.margem_media
    categoria := a.categoria
    cd_produto := a.cd_produto
    itens_devolvidos_total :=
      ((rTotals.find? fun t => t.cd_produto = a.cd_produto).map
        fun t => t.devolucao_total).getD 0
    pedidos_devolvidos_total :=
      ((rTotals.find? fun t => t.cd_produto = a.cd_produto).map
        fun t => t.pedidos_devolvidos_total).getD 0
    receita_devolucao_total :=
      ((rTotals.find? fun t => t.cd_produto = a.cd_produto).map
        fun t => t.receita_devolucao_total).getD 0
    taxa_devolucao :=
      if 0 < a.itens_vendidos_total then
        (((rTotals.find? fun t => t.cd_produto = a.cd_produto).map
          fun t => t.devolucao_total).getD 0) / a.itens_vendidos_total
      else 0
    ticket_medio_estimado :=
      if 0 < a.pedidos_total then a.receita_total / (a.pedidos_total : ℚ)
      else 0 }

/-- The merged aggregation; the `if aggregated.empty` early return of lines
67–68 emits zero rows, which coincides with this map on the empty list. -/
def lowCostAggregated (frame : SalesFrame) (category : Option PyStr) :
    List LowCostAggRow :=
  (lowCostAgg (lowCostData frame category)).map
    (lowCostMergeRow (lowCostReturnTotals frame category))

/-- The cost-percentile threshold (line 98). -/
def lowCostThreshold (frame : SalesFrame) (category : Option PyStr)
    (costPercentile : ℚ) : ℚ :=
  quantileQ ((lowCostAggregated frame category).map
    fun a => a.custo_medio_unitario) costPercentile

/-- The selection filter (lines 100–104): cheap enough, enough volume, low
enough return rate. -/
def lowCostFiltered (frame : SalesFrame) (category : Option PyStr)
    (costPercentile minQuantity maxReturnRate : ℚ) : List LowCostAggRow :=
  (lowCostAggregated frame category).filter fun a =>
    a.custo_medio_unitario ≤ lowCostThreshold frame category costPercentile ∧
      minQuantity ≤ a.itens_vendidos_total ∧ a.taxa_devolucao ≤ maxReturnRate

/-- The first sort (lines 106–110): unit cost ascending, volume
descending. -/
def lowCostCostSorted (frame : SalesFrame) (category : Option PyStr)
    (costPercentile minQuantity maxReturnRate : ℚ) : List LowCostAggRow :=
  sortBy (fun a b : LowCostAggRow =>
      decide (a.custo_medio_unitario < b.custo_medio_unitario ∨
        (a.custo_medio_unitario = b.custo_medio_unitario ∧
          b.itens_vendidos_total ≤ a.itens_vendidos_total)))
    (lowCostFiltered frame category costPercentile minQuantity maxReturnRate)

/-- The reputation score column (lines 112–118): `np.where` keeps the cost
itself as the divisor whenever it is positive and falls back to `1` only at
zero or negative cost. -/
def lowCostScore (a : LowCostAggRow) : ℚ :=
  (1 - a.taxa_devolucao) * a.itens_vendidos_total /
    (if 0 < a.custo_medio_unitario then a.custo_medio_unitario else 1)

/-- A selected row with its score column. -/
structure ScoredRow where
  base : LowCostAggRow
  potencial_reputacao_score : ℚ
deriving DecidableEq

/-- The score assignment over the selected rows. -/
def lowCostScored (frame : SalesFrame) (category : Option PyStr)
    (costPercentile minQuantity maxReturnRate : ℚ) : List ScoredRow :=
  (lowCostCostSorted frame category costPercentile minQuantity maxReturnRate).map
    fun a => { base := a, potencial_reputacao_score := lowCostScore a }

/-- `selecionados` after the final descending score sort (lines 119–123).
The later formatting pass (lines 127–165) only rounds the rate/margin
columns and appends price columns; it touches neither the score column nor
the row order. -/
def lowCostSelected (frame : SalesFrame) (category : Option PyStr)
    (costPercentile minQuantity maxReturnRate : ℚ) : List ScoredRow :=
  sortBy (fun x y : ScoredRow =>
      decide (y.potencial_reputacao_score ≤ x.potencial_reputacao_score))
    (lowCostScored frame category costPercentile minQuantity maxReturnRate)

/-- The reputation-score formula as the spec words it: the divisor is
`max(mean unit cost, 1)`. -/
def specReputationScore (rate vol cost : ℚ) : ℚ := (1 - rate) * vol / max cost 1

theorem pairwise_insertSorted {α : Type} (le : α → α → Bool)
    (htot : ∀ a b, le a b = true ∨ le b a = true)
    (htrans : ∀ a b c, le a b = true → le b c = true → le a c = true)
    (a : α) : ∀ l : List α, List.Pairwise (fun x y => le x y = true) l →
      List.Pairwise (fun x y => le x y = true) (insertSorted le a l) := by
  intro l
  induction l with
  | nil => intro _; simp [insertSorted]
  | cons b t ih =>
    intro hp
    rw [List.pairwise_cons] at hp
    obtain ⟨hb, ht⟩ := hp
    simp only [insertSorted]
    split
    · rename_i hab
      rw [List.pairwise_cons]
      refine ⟨?_, List.pairwise_cons.mpr ⟨hb, ht⟩⟩
      intro x hx
      rcases List.mem_cons.mp hx with h | h
      · exact h ▸ hab
      · exact htrans a b x hab (hb x h)
    · rename_i hnab
      have hba : le b a = true := by
        rcases htot a b with h | h
        · exact absurd h hnab
        · exact h
      rw [List.pairwise_cons]
      refine ⟨?_, ih ht⟩
      intro x hx
      rcases (mem_insertSorted le a x t).mp hx with h | h
      · exact h ▸ hba
      · exact hb x h

theorem pairwise_sortBy {α : Type} (le : α → α → Bool)
    (htot : ∀ a b, le a b = true ∨ le b a = true)
    (htrans : ∀ a b c, le a b = true → le b c = true → le a c = true)
    (l : List α) : List.Pairwise (fun x y => le x y = true) (sortBy le l) := by
  induction l with
  | nil => simp [sortBy]
  | cons b t ih =>
    simp only [sortBy, List.foldr_cons] at ih ⊢
    exact pairwise_insertSorted le htot htrans b _ ih

theorem quantileQ_singleton (c q : ℚ) : quantileQ [c] q = c := by
  simp [quantileQ, sortBy, insertSorted, qInterp, qLow, qHigh, qPos]

/-- C8: every selected row of the low-cost reputation analysis carries the
score `(1 - return rate) * volume` divided by the mean unit cost when that
cost is positive and by `1` otherwise, and the selected rows are ordered by
this score in descending order.  The score agrees with the spec's
`max(mean unit cost, 1)` divisor whenever the mean unit cost is at most `0`
or at least `1` — but not on the open interval `(0, 1)`. -/
theorem low_cost_reputation_score_and_order (frame : SalesFrame)
    (category : Option PyStr) (cp mq mr : ℚ) :
    (∀ r ∈ lowCostSelected frame category cp mq mr,
      r.potencial_reputacao_score = lowCostScore r.base ∧
        (r.base.custo_medio_unitario ≤ 0 ∨ 1 ≤ r.base.custo_medio_unitario →
          r.potencial_reputacao_score =
            specReputationScore r.base.taxa_devolucao
              r.base.itens_vendidos_total r.base.custo_medio_unitario)) ∧
      List.Pairwise
        (fun x y : ScoredRow =>
          y.potencial_reputacao_score ≤ x.potencial_reputacao_score)
        (lowCostSelected frame category cp mq mr) := by
  constructor
  · intro r hr
    rw [lowCostSelected, mem_sortBy, lowCostScored] at hr
    rcases List.mem_map.mp hr with ⟨a, _, rfl⟩
    refine ⟨rfl, ?_⟩
    intro hc
    show lowCostScore a = specReputationScore a.taxa_devolucao
      a.itens_vendidos_total a.custo_medio_unitario
    rcases hc with hc | hc
    · simp only [lowCostScore, specReputationScore]
      rw [if_neg (not_lt.mpr hc), max_eq_right (hc.trans zero_le_one)]
    · simp only [lowCostScore, specReputationScore]
      rw [if_pos (lt_of_lt_of_le zero_lt_one hc), max_eq_left hc]
  · have hp := pairwise_sortBy
      (fun x y : ScoredRow =>
        decide (y.potencial_reputacao_score ≤ x.potencial_reputacao_score))
      (fun a b => by
        simp only [decide_eq_true_eq]
        exact le_total _ _)
      (fun a b c h1 h2 => by
        simp only [decide_eq_true_eq] at h1 h2 ⊢
        exact le_trans h2 h1)
      (lowCostScored frame category cp mq mr)
    simp only [lowCostSelected]
    exact List.Pairwise.imp (fun h => of_decide_eq_true h) hp

theorem computeReturnsTotalsLC_no_returns (data : List SalesRow)
    (category : Option PyStr) (allowed : List PyStr) :
    computeReturnsTotalsLC data [] category allowed = [] := by
  have h1 : filterReturnsByCategory [] category = [] := by
    cases category with
    | none => rfl
    | some c => simp [filterReturnsByCategory]
  have h3 : spScope data ([] : List PrepRow) = [] := by
    simp [spScope]
  have h4 : spDates data ([] : List PrepRow) = [] := by
    unfold spDates
    split <;> simp
  have h5 : spPeriods allowed ([] : List PrepRow) = [] := by
    simp [spPeriods]
  have h2 : scopedPrepared data [] category allowed = [] := by
    rw [scopedPrepared, h1]
    show spPeriods allowed (spDates data (spScope data (prepareReturns []))) = []
    rw [show prepareReturns [] = [] from rfl, h3, h4, h5]
  rw [computeReturnsTotalsLC, h2]
  simp [buildPeriodProductTotals, overallOf, groupBy]

theorem lowCostReturnTotals_no_returns (frame : SalesFrame)
    (category : Option PyStr) (h : frame.returnsData = []) :
    lowCostReturnTotals frame category = [] := by
  rw [lowCostReturnTotals, h]
  exact computeReturnsTotalsLC_no_returns _ _ _

/-- A one-advert sales frame: 50 units at mean unit cost 2, no returns. -/
def w8SalesRow : SalesRow :=
  { data := some ⟨2024, 1, 5⟩
    periodo := some ⟨2024, 1⟩
    categoria := ['X']
    cd_anuncio := ['A']
    ds_anuncio := ['a']
    cd_produto := ['7']
    ds_produto := ['p']
    cd_fabricante := []
    tp_anuncio := []
    nr_nota_fiscal := ['N', '1']
    custo_produto := 2
    preco_unitario := 0
    qtd_sku := 50
    perc_margem_bruta := 1/5
    rbld := 10
    qtd_devolvido := 0
    devolucao_receita_bruta := 0
    receita_bruta_calc := 0
    lucro_bruto_estimado := 0
    taxa_devolucao := 0 }

def w8Frame : SalesFrame := ⟨[w8SalesRow], []⟩

/-- The single selected row of `w8Frame`: score `(1 - 0) * 50 / 2 = 25`. -/
def w8scored : ScoredRow :=
  { base :=
      { cd_anuncio := ['A']
        ds_anuncio := ['a']
        itens_vendidos_total := 50
        pedidos_total := 1
        receita_total := 10
        custo_medio_unitario := 2
        custo_produto := 2
        margem_media := 1/5
        categoria := ['X']
        cd_produto := ['7']
        itens_devolvidos_total := 0
        pedidos_devolvidos_total := 0
        receita_devolucao_total := 0
        taxa_devolucao := 0
        ticket_medio_estimado := 10 }
    potencial_reputacao_score := 25 }

/-- Witness for the C8 theorem: on the concrete one-advert frame the single
selected row is in the output and its score agrees with the spec's formula
(mean unit cost 2 is at least 1). -/
theorem low_cost_reputation_score_and_order_witness :
    w8scored ∈ lowCostSelected w8Frame none (1/4) 50 (1/20) ∧
      w8scored.potencial_reputacao_score =
        specReputationScore w8scored.base.taxa_devolucao
          w8scored.base.itens_vendidos_total
          w8scored.base.custo_medio_unitario := by
  have hEval : lowCostSelected w8Frame none (1/4) 50 (1/20) = [w8scored] := by
    norm_num [lowCostSelected, lowCostScored, lowCostCostSorted, lowCostFiltered,
      lowCostThreshold, lowCostAggregated, lowCostReturnTotals_no_returns,
      lowCostAgg, lowCostData,
      filterByCategory, groupBy, sumQ, meanQ, quantileQ_singleton, sortBy,
      insertSorted, lowCostMergeRow, lowCostScore, w8Frame, w8SalesRow, w8scored,
      show textNorm ['7'] = ['7'] from by decide, List.dedup_cons_of_not_mem,
      ScoredRow.mk.injEq, LowCostAggRow.mk.injEq]
  have hmem : w8scored ∈ lowCostSelected w8Frame none (1/4) 50 (1/20) := by
    rw [hEval]
    exact List.mem_cons_self _ _
  exact ⟨hmem,
    ((low_cost_reputation_score_and_order w8Frame none (1/4) 50 (1/20)).1
        w8scored hmem).2 (Or.inr (by norm_num [w8scored]))⟩

/-- The same frame at mean unit cost `1/2` (strictly between 0 and 1). -/
def cex8SalesRow : SalesRow :=
  { w8SalesRow with custo_produto := 1/2 }

def cex8Frame : SalesFrame := ⟨[cex8SalesRow], []⟩

/-- Its single selected row: the code divides by the cost `1/2` itself and
scores `(1 - 0) * 50 / (1/2) = 100`. -/
def cex8scored : ScoredRow :=
  { base :=
      { cd_anuncio := ['A']
        ds_anuncio := ['a']
        itens_vendidos_total := 50
        pedidos_total := 1
        receita_total := 10
        custo_medio_unitario := 1/2
        custo_produto := 1/2
        margem_media := 1/5
        categoria := ['X']
        cd_produto := ['7']
        itens_devolvidos_total := 0
        pedidos_devolvidos_total := 0
        receita_devolucao_total := 0
        taxa_devolucao := 0
        ticket_medio_estimado := 10 }
    potencial_reputacao_score := 100 }

/-- C8 counterexample: for a mean unit cost strictly between 0 and 1 the
code's `np.where(custo > 0, custo, 1)` divisor is the cost itself, not the
spec's `max(mean unit cost, 1)`: a half-unit-cost, 50-unit, return-free
product scores 100 where the spec's formula gives 50. -/
theorem low_cost_score_deviates_from_spec :
    ((lowCostSelected cex8Frame none (1/4) 50 (1/20)).map
        fun r => r.potencial_reputacao_score) = [100] ∧
      ((lowCostSelected cex8Frame none (1/4) 50 (1/20)).map fun r =>
          specReputationScore r.base.taxa_devolucao r.base.itens_vendidos_total
            r.base.custo_medio_unitario) = [50] ∧
      (100 : ℚ) ≠ 50 := by
  have hEval : lowCostSelected cex8Frame none (1/4) 50 (1/20) = [cex8scored] := by
    norm_num [lowCostSelected, lowCostScored, lowCostCostSorted, lowCostFiltered,
      lowCostThreshold, lowCostAggregated, lowCostReturnTotals_no_returns,
      lowCostAgg, lowCostData,
      filterByCategory, groupBy, sumQ, meanQ, quantileQ_singleton, sortBy,
      insertSorted, lowCostMergeRow, lowCostScore, cex8Frame, cex8SalesRow,
      w8SalesRow, cex8scored,
      show textNorm ['7'] = ['7'] from by decide, List.dedup_cons_of_not_mem,
      ScoredRow.mk.injEq, LowCostAggRow.mk.injEq]
  refine ⟨?_, ?_, by norm_num⟩
  · rw [hEval]
    norm_num [cex8scored]
  · rw [hEval]
    norm_num [cex8scored, specReputationScore,
      show max (1/2 : ℚ) 1 = 1 from max_eq_right (by norm_num)]
